import Mathlib

/-!
Verification of the streaming-indicator and decision-engine core of the
`trading_strat` repository.  Prices and volumes are modelled as rationals;
Python lists become Lean lists, circular buffers become fixed-length lists
with a modulo write cursor, and `None` becomes `Option.none`.
-/

namespace TradingStrat

/-! ## Generic list / modular-arithmetic helpers -/

theorem getD_set_self {α : Type} (l : List α) (i : Nat) (h : i < l.length) (a d : α) :
    (l.set i a).getD i d = a := by
  induction l generalizing i with
  | nil => simp at h
  | cons x xs ih =>
    cases i with
    | zero => rfl
    | succ j =>
      simp only [List.set, List.getD, List.getElem?_cons_succ]
      have := ih j (by simpa using h)
      simpa [List.getD] using this

theorem getD_set_ne {α : Type} (l : List α) {i j : Nat} (h : i ≠ j) (a : α) (d : α) :
    (l.set i a).getD j d = l.getD j d := by
  induction l generalizing i j with
  | nil => simp [List.set]
  | cons x xs ih =>
    cases i with
    | zero =>
      cases j with
      | zero => exact absurd rfl h
      | succ k => rfl
    | succ i' =>
      cases j with
      | zero => rfl
      | succ k =>
        simp only [List.set, List.getD, List.getElem?_cons_succ]
        have := ih (i := i') (j := k) (fun hc => h (by rw [hc]))
        simpa [List.getD] using this

theorem mod_add_cancel (a b m : Nat) : (a % m + b) % m = (a + b) % m := by
  conv_rhs => rw [Nat.add_mod]
  conv_lhs => rw [Nat.add_mod]
  rw [Nat.mod_mod_of_dvd a (dvd_refl m)]

theorem succ_mod_eq (L m : Nat) : (L % m + 1) % m = (L + 1) % m :=
  mod_add_cancel L 1 m

theorem pred_mod_eq (a m : Nat) (hm : 0 < m) (ha : 1 ≤ a) :
    ((a % m) + m - 1) % m = (a - 1) % m := by
  have h1 : (a % m) + m - 1 = a % m + (m - 1) := by omega
  have h2 : (a + m - 1) = (a - 1) + m := by omega
  calc ((a % m) + m - 1) % m = (a % m + (m - 1)) % m := by rw [h1]
    _ = (a + (m - 1)) % m := mod_add_cancel a (m - 1) m
    _ = ((a - 1) + m) % m := by rw [show a + (m - 1) = (a - 1) + m by omega]
    _ = (a - 1) % m := Nat.add_mod_right _ _

theorem getD_append_left {α : Type} (l l2 : List α) (n : Nat) (d : α) (h : n < l.length) :
    (l ++ l2).getD n d = l.getD n d := by
  induction l generalizing n with
  | nil => simp at h
  | cons x xs ih =>
    cases n with
    | zero => rfl
    | succ k =>
      simp only [List.cons_append, List.getD, List.getElem?_cons_succ]
      have := ih k (by simpa using h)
      simpa [List.getD] using this

theorem getD_append_len {α : Type} (l : List α) (x d : α) :
    (l ++ [x]).getD l.length d = x := by
  induction l with
  | nil => rfl
  | cons y ys ih =>
    simpa [List.getD] using ih

theorem mod_sub_ne (L j m : Nat) (hm : 0 < m) (hj1 : 1 ≤ j) (hjm : j < m) (hjL : j ≤ L) :
    (L - j) % m ≠ L % m := by
  intro h
  have hle : L - j ≤ L := Nat.sub_le _ _
  have hmod : L - j ≡ L [MOD m] := h
  have hdvd : m ∣ L - (L - j) := (Nat.modEq_iff_dvd' hle).mp hmod
  rw [Nat.sub_sub_self hjL] at hdvd
  have := Nat.le_of_dvd (by omega) hdvd
  omega

/-! ## Bars

One bar record serves all indicators; fields mirror the Nautilus `Bar`
attributes read by the source (`bar.open` is called `open_` because `open`
is a Lean keyword, matching the Python local `open_`). -/

structure Bar where
  open_ : ℚ
  high : ℚ
  low : ℚ
  close : ℚ
  volume : ℚ
  deriving DecidableEq, Repr, Inhabited

/-! ## RollingExtremaTracker (`HighLowDailyHistIndicator`, src/indicators/high_low_hist.py) -/

structure HLCfg where
  enter_high_lookback : Nat
  enter_low_lookback : Nat
  exit_high_lookback : Nat
  exit_low_lookback : Nat
  deriving DecidableEq, Repr

def HLCfg.maxLookback (c : HLCfg) : Nat :=
  max (max c.enter_high_lookback c.enter_low_lookback)
      (max c.exit_high_lookback c.exit_low_lookback)

/-- The constructor validation `lb <= 0 → ValueError`. -/
def HLCfg.valid (c : HLCfg) : Prop :=
  0 < c.enter_high_lookback ∧ 0 < c.enter_low_lookback ∧
  0 < c.exit_high_lookback ∧ 0 < c.exit_low_lookback

instance (c : HLCfg) : Decidable c.valid := by unfold HLCfg.valid; infer_instance

structure HLState where
  highs : List (Option ℚ)
  lows : List (Option ℚ)
  next_idx : Nat
  initialized : Bool
  value : Option (Option ℚ × Option ℚ × Option ℚ × Option ℚ)
  deriving DecidableEq, Repr

def hlInit (c : HLCfg) : HLState :=
  ⟨List.replicate c.maxLookback none, List.replicate c.maxLookback none, 0, false, none⟩

/-- The scanning loop shared by `max_last` and `min_last`: `k` remaining
iterations of `for _ in range(1, n)`, current index `idx`, running `best`.
`repl b v = true` means the source comparison (`v > best` resp. `v < best`)
replaces `best` by `v`. -/
def scanGo (buf : List (Option ℚ)) (m : Nat) (repl : ℚ → ℚ → Bool) :
    Nat → Nat → Option ℚ → Option ℚ
  | 0, _, best => best
  | k + 1, idx, best =>
    let idx2 := (idx + m - 1) % m
    let best2 :=
      match buf.getD idx2 none, best with
      | some v, some b => if repl b v then some v else some b
      | _, _ => best
    scanGo buf m repl k idx2 best2

/-- `max_last(n)` computed before the current bar is inserted. -/
def maxLast (s : HLState) (m n : Nat) : Option ℚ :=
  scanGo s.highs m (fun b v => decide (b < v)) (n - 1) ((s.next_idx + m - 1) % m)
    (s.highs.getD ((s.next_idx + m - 1) % m) none)

/-- `min_last(n)` computed before the current bar is inserted. -/
def minLast (s : HLState) (m n : Nat) : Option ℚ :=
  scanGo s.lows m (fun b v => decide (v < b)) (n - 1) ((s.next_idx + m - 1) % m)
    (s.lows.getD ((s.next_idx + m - 1) % m) none)

def hlHandleBar (c : HLCfg) (bar : Bar) (s : HLState) : HLState :=
  let m := c.maxLookback
  let value' :=
    if s.initialized then
      some (maxLast s m c.enter_high_lookback, minLast s m c.enter_low_lookback,
            maxLast s m c.exit_high_lookback, minLast s m c.exit_low_lookback)
    else s.value
  let highs' := s.highs.set s.next_idx (some bar.high)
  let lows' := s.lows.set s.next_idx (some bar.low)
  let init' := if !s.initialized && (s.next_idx == m - 1) then true else s.initialized
  { highs := highs', lows := lows', next_idx := (s.next_idx + 1) % m,
    initialized := init', value := value' }

def hlReset (c : HLCfg) (_s : HLState) : HLState :=
  ⟨List.replicate c.maxLookback none, List.replicate c.maxLookback none, 0, false, none⟩

def hlRun (c : HLCfg) (bs : List Bar) : HLState :=
  bs.foldl (fun s b => hlHandleBar c b s) (hlInit c)

theorem hlRun_append (c : HLCfg) (bs : List Bar) (b : Bar) :
    hlRun c (bs ++ [b]) = hlHandleBar c b (hlRun c bs) := by
  simp [hlRun, List.foldl_append]

/-- Full state invariant of the tracker after feeding any bar list:
buffer lengths, cursor position, the initialization flag, availability of
`value`, and the contents of both circular buffers in terms of the bar
history (`j`-th most recent bar sits at index `(L - 1 - j) % m`). -/
theorem hl_invariant (c : HLCfg) (hv : c.valid) (bs : List Bar) :
    (hlRun c bs).highs.length = c.maxLookback ∧
    (hlRun c bs).lows.length = c.maxLookback ∧
    (hlRun c bs).next_idx = bs.length % c.maxLookback ∧
    (hlRun c bs).initialized = decide (c.maxLookback ≤ bs.length) ∧
    (hlRun c bs).value.isSome = decide (c.maxLookback < bs.length) ∧
    (∀ j, j < c.maxLookback → j < bs.length →
      (hlRun c bs).highs.getD ((bs.length - 1 - j) % c.maxLookback) none =
        some ((bs.map Bar.high).getD (bs.length - 1 - j) 0)) ∧
    (∀ j, j < c.maxLookback → j < bs.length →
      (hlRun c bs).lows.getD ((bs.length - 1 - j) % c.maxLookback) none =
        some ((bs.map Bar.low).getD (bs.length - 1 - j) 0)) := by
  have hm : 0 < c.maxLookback := by
    have := hv.1
    unfold HLCfg.maxLookback
    omega
  induction bs using List.reverseRecOn with
  | nil =>
    refine ⟨by simp [hlRun, hlInit], by simp [hlRun, hlInit], by simp [hlRun, hlInit],
      by simp [hlRun, hlInit]; omega, by simp [hlRun, hlInit], ?_, ?_⟩ <;>
      · intro j _ hj
        exact absurd hj (by simp)
  | append_singleton bs b ih =>
    obtain ⟨ihH, ihL, ihN, ihI, ihV, ihBh, ihBl⟩ := ih
    set m := c.maxLookback with hmdef
    set L := bs.length with hL
    have hlen : (bs ++ [b]).length = L + 1 := by simp
    rw [hlRun_append]
    refine ⟨?_, ?_, ?_, ?_, ?_, ?_, ?_⟩
    · simp [hlHandleBar, ihH]
    · simp [hlHandleBar, ihL]
    · simp only [hlHandleBar, hlen, ihN]
      exact succ_mod_eq L m
    · simp only [hlHandleBar, hlen, ihN, ihI]
      split
      · next hcond =>
        simp only [Bool.and_eq_true, Bool.not_eq_true', decide_eq_false_iff_not,
          beq_iff_eq] at hcond
        obtain ⟨hnle, hmod⟩ := hcond
        have hlt : L < m := by omega
        rw [Nat.mod_eq_of_lt hlt] at hmod
        have h2 : m ≤ L + 1 := by omega
        simp [h2]
      · next hcond =>
        by_cases h1 : m ≤ L
        · have h2 : m ≤ L + 1 := by omega
          simp [h1, h2]
        · have hlt : L < m := by omega
          have hmod : L % m = L := Nat.mod_eq_of_lt hlt
          have hne : L ≠ m - 1 := by
            intro he
            apply hcond
            rw [decide_eq_false h1]
            simp only [Bool.not_false, Bool.true_and, beq_iff_eq, hmod, he, ← hmdef]
            exact Nat.mod_eq_of_lt (by omega)
          have h2 : ¬ (m ≤ L + 1) := by omega
          simp [h1, h2]
    · simp only [hlHandleBar, hlen, ihI]
      by_cases h1 : m ≤ L
      · have h3 : m < L + 1 := by omega
        simp [h1, h3]
      · cases hval : (hlRun c bs).value with
        | some v =>
          rw [hval] at ihV
          simp at ihV
          omega
        | none =>
          simp [h1, hval, show ¬ (m < L + 1) by omega]
    · intro j hjm hjL1
      rw [hlen] at hjL1 ⊢
      simp only [hlHandleBar, ihN]
      by_cases hj0 : j = 0
      · subst hj0
        have hidx : (L + 1 - 1 - 0) % m = L % m := by simp
        rw [hidx]
        have hset : ((hlRun c bs).highs.set (L % m) (some b.high)).getD (L % m) none
            = some b.high :=
          getD_set_self _ _ (by rw [ihH]; exact Nat.mod_lt _ hm) _ _
        have hr : ((bs ++ [b]).map Bar.high).getD (L + 1 - 1 - 0) 0 = b.high := by
          rw [List.map_append]
          simpa using getD_append_len (bs.map Bar.high) b.high 0
        rw [hr]
        exact hset
      · have hj1 : 1 ≤ j := by omega
        have hidx : (L + 1 - 1 - j) % m = (L - j) % m := rfl
        rw [hidx]
        have hne : (L - j) % m ≠ L % m :=
          mod_sub_ne L j m hm hj1 hjm (by omega)
        rw [getD_set_ne _ (Ne.symm hne)]
        have hrec := ihBh (j - 1) (by omega) (by omega)
        have hidx2 : (L - 1 - (j - 1)) = (L - j) := by omega
        rw [hidx2] at hrec
        rw [hrec]
        have hidx3 : L + 1 - 1 - j = L - j := by omega
        rw [hidx3, List.map_append]
        rw [getD_append_left _ _ _ _ (by simp; omega)]
    · intro j hjm hjL1
      rw [hlen] at hjL1 ⊢
      simp only [hlHandleBar, ihN]
      by_cases hj0 : j = 0
      · subst hj0
        have hidx : (L + 1 - 1 - 0) % m = L % m := by simp
        rw [hidx]
        have hset : ((hlRun c bs).lows.set (L % m) (some b.low)).getD (L % m) none
            = some b.low :=
          getD_set_self _ _ (by rw [ihL]; exact Nat.mod_lt _ hm) _ _
        have hr : ((bs ++ [b]).map Bar.low).getD (L + 1 - 1 - 0) 0 = b.low := by
          rw [List.map_append]
          simpa using getD_append_len (bs.map Bar.low) b.low 0
        rw [hr]
        exact hset
      · have hj1 : 1 ≤ j := by omega
        have hidx : (L + 1 - 1 - j) % m = (L - j) % m := rfl
        rw [hidx]
        have hne : (L - j) % m ≠ L % m :=
          mod_sub_ne L j m hm hj1 hjm (by omega)
        rw [getD_set_ne _ (Ne.symm hne)]
        have hrec := ihBl (j - 1) (by omega) (by omega)
        have hidx2 : (L - 1 - (j - 1)) = (L - j) := by omega
        rw [hidx2] at hrec
        rw [hrec]
        have hidx3 : L + 1 - 1 - j = L - j := by omega
        rw [hidx3, List.map_append]
        rw [getD_append_left _ _ _ _ (by simp; omega)]
/-- The `n` most recent elements of a list (used to express "the highs of the
`N` bars immediately preceding the current one"). -/
def lastWindow (l : List ℚ) (n : Nat) : List ℚ := l.drop (l.length - n)

/-- `M` is the maximum of the last `n` elements of `l`. -/
def isMaxOfWindow (M : ℚ) (l : List ℚ) (n : Nat) : Prop :=
  M ∈ lastWindow l n ∧ ∀ x ∈ lastWindow l n, x ≤ M

/-- `M` is the minimum of the last `n` elements of `l`. -/
def isMinOfWindow (M : ℚ) (l : List ℚ) (n : Nat) : Prop :=
  M ∈ lastWindow l n ∧ ∀ x ∈ lastWindow l n, M ≤ x

theorem isMaxOfWindow_unique {M M' : ℚ} {l : List ℚ} {n : Nat}
    (h : isMaxOfWindow M l n) (h' : isMaxOfWindow M' l n) : M = M' :=
  le_antisymm (h'.2 M h.1) (h.2 M' h'.1)

theorem getD_mem_lastWindow (hs : List ℚ) (n i : Nat) (hn : n ≤ hs.length) (hi : i < n) :
    hs.getD (hs.length - 1 - i) 0 ∈ lastWindow hs n := by
  have hlen : (hs.drop (hs.length - n)).length = n := by simp; omega
  have hidx : n - 1 - i < (hs.drop (hs.length - n)).length := by omega
  have hb1 : (hs.length - n) + (n - 1 - i) < hs.length := by omega
  have hb2 : hs.length - 1 - i < hs.length := by omega
  have h1 : (hs.drop (hs.length - n))[n - 1 - i] =
      hs[(hs.length - n) + (n - 1 - i)] := List.getElem_drop _
  have h2 : hs.getD (hs.length - 1 - i) 0 = hs[hs.length - 1 - i] :=
    List.getD_eq_getElem _ _ (by omega)
  have h3 : (hs.length - n) + (n - 1 - i) = hs.length - 1 - i := by omega
  unfold lastWindow
  rw [h2]
  have := List.getElem_mem hidx
  rw [h1] at this
  simpa [h3] using this

theorem mem_lastWindow_getD (hs : List ℚ) (n : Nat) (x : ℚ) (hn : n ≤ hs.length)
    (hx : x ∈ lastWindow hs n) : ∃ i, i < n ∧ x = hs.getD (hs.length - 1 - i) 0 := by
  unfold lastWindow at hx
  obtain ⟨j, hj, hjx⟩ := List.mem_iff_getElem.mp hx
  have hlen : (hs.drop (hs.length - n)).length = n := by simp; omega
  refine ⟨n - 1 - j, by omega, ?_⟩
  have hj2 : j < n := by rw [hlen] at hj; exact hj
  have hb1 : (hs.length - n) + j < hs.length := by omega
  have hb2 : hs.length - 1 - (n - 1 - j) < hs.length := by omega
  have h1 : (hs.drop (hs.length - n))[j] =
      hs[(hs.length - n) + j] := List.getElem_drop _
  have h2 : hs.getD (hs.length - 1 - (n - 1 - j)) 0 =
      hs[hs.length - 1 - (n - 1 - j)] :=
    List.getD_eq_getElem _ _ (by omega)
  have h3 : hs.length - 1 - (n - 1 - j) = (hs.length - n) + j := by omega
  rw [← hjx, h1, h2]
  congr 1
  omega

theorem scanGo_succ (buf : List (Option ℚ)) (m : Nat) (repl : ℚ → ℚ → Bool)
    (k idx : Nat) (best : Option ℚ) :
    scanGo buf m repl (k + 1) idx best =
      scanGo buf m repl k ((idx + m - 1) % m)
        (match buf.getD ((idx + m - 1) % m) none, best with
         | some v, some b => if repl b v then some v else some b
         | _, _ => best) := rfl

/-- Correctness of the circular `max`-scan: starting at index `(L-1-j₀) % m`
with accumulator `some B` and `k` steps remaining, the result is the best of
`B` and `f (j₀+1) … f (j₀+k)`, where `f j` is the buffer content at the
`j`-th most recent slot. -/
theorem scanGo_max_spec (buf : List (Option ℚ)) (m L : Nat) (hm : 0 < m) (f : Nat → ℚ)
    (hbuf : ∀ j, j < m → buf.getD ((L - 1 - j) % m) none = some (f j)) :
    ∀ (k j₀ : Nat) (B : ℚ), j₀ + k < m → j₀ + k + 1 ≤ L →
    ∃ R, scanGo buf m (fun b v => decide (b < v)) k ((L - 1 - j₀) % m) (some B) = some R ∧
      (R = B ∨ ∃ i, j₀ < i ∧ i ≤ j₀ + k ∧ R = f i) ∧ B ≤ R ∧
      (∀ i, j₀ < i → i ≤ j₀ + k → f i ≤ R) := by
  intro k
  induction k with
  | zero =>
    intro j₀ B _ _
    exact ⟨B, rfl, Or.inl rfl, le_refl B, fun i h1 h2 => by omega⟩
  | succ k ih =>
    intro j₀ B hkm hkL
    have hstep : ((L - 1 - j₀) % m + m - 1) % m = (L - 1 - (j₀ + 1)) % m := by
      have h2 : L - 1 - j₀ - 1 = L - 1 - (j₀ + 1) := by omega
      rw [pred_mod_eq (L - 1 - j₀) m hm (by omega), h2]
    have hget : buf.getD ((L - 1 - (j₀ + 1)) % m) none = some (f (j₀ + 1)) :=
      hbuf (j₀ + 1) (by omega)
    rw [scanGo_succ, hstep]
    have hred : (match buf.getD ((L - 1 - (j₀ + 1)) % m) none, some B with
         | some v, some b => if (fun b v => decide (b < v)) b v then some v else some b
         | _, _ => some B) = if B < f (j₀ + 1) then some (f (j₀ + 1)) else some B := by
      rw [hget]
      simp
    rw [hred]
    by_cases hbv : B < f (j₀ + 1)
    · rw [if_pos hbv]
      obtain ⟨R, hR, hprov, hle, hbound⟩ := ih (j₀ + 1) (f (j₀ + 1)) (by omega) (by omega)
      refine ⟨R, hR, ?_, ?_, ?_⟩
      · rcases hprov with h | ⟨i, hi1, hi2, hi3⟩
        · exact Or.inr ⟨j₀ + 1, by omega, by omega, h⟩
        · exact Or.inr ⟨i, by omega, by omega, hi3⟩
      · exact le_of_lt (lt_of_lt_of_le hbv hle)
      · intro i h1 h2
        rcases Nat.eq_or_lt_of_le h1 with h | h
        · rw [← h]
          exact hle
        · exact hbound i (by omega) (by omega)
    · rw [if_neg hbv]
      obtain ⟨R, hR, hprov, hle, hbound⟩ := ih (j₀ + 1) B (by omega) (by omega)
      refine ⟨R, hR, ?_, hle, ?_⟩
      · rcases hprov with h | ⟨i, hi1, hi2, hi3⟩
        · exact Or.inl h
        · exact Or.inr ⟨i, by omega, by omega, hi3⟩
      · intro i h1 h2
        rcases Nat.eq_or_lt_of_le h1 with h | h
        · rw [← h]
          exact le_trans (le_of_not_lt hbv) hle
        · exact hbound i (by omega) (by omega)

/-- Correctness of the circular `min`-scan, dual to `scanGo_max_spec`. -/
theorem scanGo_min_spec (buf : List (Option ℚ)) (m L : Nat) (hm : 0 < m) (f : Nat → ℚ)
    (hbuf : ∀ j, j < m → buf.getD ((L - 1 - j) % m) none = some (f j)) :
    ∀ (k j₀ : Nat) (B : ℚ), j₀ + k < m → j₀ + k + 1 ≤ L →
    ∃ R, scanGo buf m (fun b v => decide (v < b)) k ((L - 1 - j₀) % m) (some B) = some R ∧
      (R = B ∨ ∃ i, j₀ < i ∧ i ≤ j₀ + k ∧ R = f i) ∧ R ≤ B ∧
      (∀ i, j₀ < i → i ≤ j₀ + k → R ≤ f i) := by
  intro k
  induction k with
  | zero =>
    intro j₀ B _ _
    exact ⟨B, rfl, Or.inl rfl, le_refl B, fun i h1 h2 => by omega⟩
  | succ k ih =>
    intro j₀ B hkm hkL
    have hstep : ((L - 1 - j₀) % m + m - 1) % m = (L - 1 - (j₀ + 1)) % m := by
      have h2 : L - 1 - j₀ - 1 = L - 1 - (j₀ + 1) := by omega
      rw [pred_mod_eq (L - 1 - j₀) m hm (by omega), h2]
    have hget : buf.getD ((L - 1 - (j₀ + 1)) % m) none = some (f (j₀ + 1)) :=
      hbuf (j₀ + 1) (by omega)
    rw [scanGo_succ, hstep]
    have hred : (match buf.getD ((L - 1 - (j₀ + 1)) % m) none, some B with
         | some v, some b => if (fun b v => decide (v < b)) b v then some v else some b
         | _, _ => some B) = if f (j₀ + 1) < B then some (f (j₀ + 1)) else some B := by
      rw [hget]
      simp
    rw [hred]
    by_cases hbv : f (j₀ + 1) < B
    · rw [if_pos hbv]
      obtain ⟨R, hR, hprov, hle, hbound⟩ := ih (j₀ + 1) (f (j₀ + 1)) (by omega) (by omega)
      refine ⟨R, hR, ?_, ?_, ?_⟩
      · rcases hprov with h | ⟨i, hi1, hi2, hi3⟩
        · exact Or.inr ⟨j₀ + 1, by omega, by omega, h⟩
        · exact Or.inr ⟨i, by omega, by omega, hi3⟩
      · exact le_of_lt (lt_of_le_of_lt hle hbv)
      · intro i h1 h2
        rcases Nat.eq_or_lt_of_le h1 with h | h
        · rw [← h]
          exact hle
        · exact hbound i (by omega) (by omega)
    · rw [if_neg hbv]
      obtain ⟨R, hR, hprov, hle, hbound⟩ := ih (j₀ + 1) B (by omega) (by omega)
      refine ⟨R, hR, ?_, hle, ?_⟩
      · rcases hprov with h | ⟨i, hi1, hi2, hi3⟩
        · exact Or.inl h
        · exact Or.inr ⟨i, by omega, by omega, hi3⟩
      · intro i h1 h2
        rcases Nat.eq_or_lt_of_le h1 with h | h
        · rw [← h]
          exact le_trans hle (le_of_not_lt hbv)
        · exact hbound i (by omega) (by omega)

theorem maxLast_window (c : HLCfg) (hv : c.valid) (bs : List Bar)
    (hinit : c.maxLookback ≤ bs.length) (n : Nat) (hn1 : 1 ≤ n) (hnm : n ≤ c.maxLookback) :
    ∃ R, maxLast (hlRun c bs) c.maxLookback n = some R ∧
      isMaxOfWindow R (bs.map Bar.high) n := by
  obtain ⟨ihH, _, ihN, _, _, ihBh, _⟩ := hl_invariant c hv bs
  have hm : 0 < c.maxLookback := by omega
  have hL : 1 ≤ bs.length := by omega
  set m := c.maxLookback
  set L := bs.length with hLdef
  set f : Nat → ℚ := fun j => (bs.map Bar.high).getD (L - 1 - j) 0 with hf
  have hbuf : ∀ j, j < m → (hlRun c bs).highs.getD ((L - 1 - j) % m) none = some (f j) :=
    fun j hj => ihBh j hj (by omega)
  have hidx0 : ((hlRun c bs).next_idx + m - 1) % m = (L - 1 - 0) % m := by
    rw [ihN]
    simpa using pred_mod_eq L m hm hL
  obtain ⟨R, hR, hprov, hB, hbound⟩ :=
    scanGo_max_spec (hlRun c bs).highs m L hm f hbuf (n - 1) 0 (f 0) (by omega) (by omega)
  refine ⟨R, ?_, ?_, ?_⟩
  · unfold maxLast
    rw [hidx0, hbuf 0 (by omega)]
    simpa using hR
  · have : ∃ i, i < n ∧ R = f i := by
      rcases hprov with h | ⟨i, hi1, hi2, hi3⟩
      · exact ⟨0, by omega, h⟩
      · exact ⟨i, by omega, hi3⟩
    obtain ⟨i, hi, hRi⟩ := this
    rw [hRi]
    have := getD_mem_lastWindow (bs.map Bar.high) n i (by simpa using hnm.trans hinit) hi
    simpa [hf, List.length_map, hLdef] using this
  · intro x hx
    obtain ⟨i, hi, hxi⟩ :=
      mem_lastWindow_getD (bs.map Bar.high) n x (by simp; omega) hx
    rw [hxi]
    rcases Nat.eq_zero_or_pos i with h0 | hpos
    · subst h0
      simpa [hf, hLdef] using hB
    · have := hbound i (by omega) (by omega)
      simpa [hf, hLdef] using this

theorem minLast_window (c : HLCfg) (hv : c.valid) (bs : List Bar)
    (hinit : c.maxLookback ≤ bs.length) (n : Nat) (hn1 : 1 ≤ n) (hnm : n ≤ c.maxLookback) :
    ∃ R, minLast (hlRun c bs) c.maxLookback n = some R ∧
      isMinOfWindow R (bs.map Bar.low) n := by
  obtain ⟨_, ihL, ihN, _, _, _, ihBl⟩ := hl_invariant c hv bs
  have hm : 0 < c.maxLookback := by omega
  have hL : 1 ≤ bs.length := by omega
  set m := c.maxLookback
  set L := bs.length with hLdef
  set f : Nat → ℚ := fun j => (bs.map Bar.low).getD (L - 1 - j) 0 with hf
  have hbuf : ∀ j, j < m → (hlRun c bs).lows.getD ((L - 1 - j) % m) none = some (f j) :=
    fun j hj => ihBl j hj (by omega)
  have hidx0 : ((hlRun c bs).next_idx + m - 1) % m = (L - 1 - 0) % m := by
    rw [ihN]
    simpa using pred_mod_eq L m hm hL
  obtain ⟨R, hR, hprov, hB, hbound⟩ :=
    scanGo_min_spec (hlRun c bs).lows m L hm f hbuf (n - 1) 0 (f 0) (by omega) (by omega)
  refine ⟨R, ?_, ?_, ?_⟩
  · unfold minLast
    rw [hidx0, hbuf 0 (by omega)]
    simpa using hR
  · have : ∃ i, i < n ∧ R = f i := by
      rcases hprov with h | ⟨i, hi1, hi2, hi3⟩
      · exact ⟨0, by omega, h⟩
      · exact ⟨i, by omega, hi3⟩
    obtain ⟨i, hi, hRi⟩ := this
    rw [hRi]
    have := getD_mem_lastWindow (bs.map Bar.low) n i (by simpa using hnm.trans hinit) hi
    simpa [hf, List.length_map, hLdef] using this
  · intro x hx
    obtain ⟨i, hi, hxi⟩ :=
      mem_lastWindow_getD (bs.map Bar.low) n x (by simp; omega) hx
    rw [hxi]
    rcases Nat.eq_zero_or_pos i with h0 | hpos
    · subst h0
      simpa [hf, hLdef] using hB
    · have := hbound i (by omega) (by omega)
      simpa [hf, hLdef] using this

/-- After an initialized tracker processes one more bar, `value` is the
tuple of the four rolling extrema over the bars strictly preceding it. -/
theorem hl_levels (c : HLCfg) (hv : c.valid) (bs : List Bar) (b : Bar)
    (hinit : c.maxLookback ≤ bs.length) :
    ∃ eh el xh xl,
      (hlRun c (bs ++ [b])).value = some (some eh, some el, some xh, some xl) ∧
      isMaxOfWindow eh (bs.map Bar.high) c.enter_high_lookback ∧
      isMinOfWindow el (bs.map Bar.low) c.enter_low_lookback ∧
      isMaxOfWindow xh (bs.map Bar.high) c.exit_high_lookback ∧
      isMinOfWindow xl (bs.map Bar.low) c.exit_low_lookback := by
  have hI : (hlRun c bs).initialized = true := by
    rw [(hl_invariant c hv bs).2.2.2.1]
    simpa using hinit
  have hmax : c.maxLookback = HLCfg.maxLookback c := rfl
  obtain ⟨eh, hehv, hehw⟩ := maxLast_window c hv bs hinit c.enter_high_lookback
    (by have := hv.1; omega) (by unfold HLCfg.maxLookback; omega)
  obtain ⟨el, helv, helw⟩ := minLast_window c hv bs hinit c.enter_low_lookback
    (by have := hv.2.1; omega) (by unfold HLCfg.maxLookback; omega)
  obtain ⟨xh, hxhv, hxhw⟩ := maxLast_window c hv bs hinit c.exit_high_lookback
    (by have := hv.2.2.1; omega) (by unfold HLCfg.maxLookback; omega)
  obtain ⟨xl, hxlv, hxlw⟩ := minLast_window c hv bs hinit c.exit_low_lookback
    (by have := hv.2.2.2; omega) (by unfold HLCfg.maxLookback; omega)
  refine ⟨eh, el, xh, xl, ?_, hehw, helw, hxhw, hxlw⟩
  rw [hlRun_append]
  simp only [hlHandleBar, hI, if_true]
  rw [hehv, helv, hxhv, hxlv]

/-- C1: for every tracker with positive lookbacks, once `initialized` is
true, the `value` produced by the next `handle_bar` call carries
`entry_high` equal to the maximum of the highs of the `enter_high_lookback`
bars immediately preceding the ingested bar (which is excluded), and
likewise for the other three levels. -/
theorem c1_entry_high_is_window_max (c : HLCfg) (hv : c.valid) (bs : List Bar) (b : Bar)
    (hinit : (hlRun c bs).initialized = true) :
    ∃ eh el xh xl,
      (hlRun c (bs ++ [b])).value = some (some eh, some el, some xh, some xl) ∧
      isMaxOfWindow eh (bs.map Bar.high) c.enter_high_lookback ∧
      isMinOfWindow el (bs.map Bar.low) c.enter_low_lookback ∧
      isMaxOfWindow xh (bs.map Bar.high) c.exit_high_lookback ∧
      isMinOfWindow xl (bs.map Bar.low) c.exit_low_lookback := by
  have hle : c.maxLookback ≤ bs.length := by
    have h := (hl_invariant c hv bs).2.2.2.1
    rw [hinit] at h
    exact of_decide_eq_true h.symm
  exact hl_levels c hv bs b hle

/-- Witness for C1 at the spec scenario: lookbacks all 1, bars
(10,8), (12,9), (11,7); after bar 2 the levels come from bar 1 alone and
after bar 3 from bar 2 alone. -/
theorem c1_entry_high_is_window_max_witness :
    (∃ eh el xh xl,
      (hlRun ⟨1, 1, 1, 1⟩ ([⟨0, 10, 8, 0, 0⟩] ++ [⟨0, 12, 9, 0, 0⟩])).value =
        some (some eh, some el, some xh, some xl) ∧
      isMaxOfWindow eh (([⟨0, 10, 8, 0, 0⟩] : List Bar).map Bar.high) 1 ∧
      isMinOfWindow el (([⟨0, 10, 8, 0, 0⟩] : List Bar).map Bar.low) 1 ∧
      isMaxOfWindow xh (([⟨0, 10, 8, 0, 0⟩] : List Bar).map Bar.high) 1 ∧
      isMinOfWindow xl (([⟨0, 10, 8, 0, 0⟩] : List Bar).map Bar.low) 1) ∧
    (∃ eh el xh xl,
      (hlRun ⟨1, 1, 1, 1⟩ ([⟨0, 10, 8, 0, 0⟩, ⟨0, 12, 9, 0, 0⟩] ++ [⟨0, 11, 7, 0, 0⟩])).value =
        some (some eh, some el, some xh, some xl) ∧
      isMaxOfWindow eh (([⟨0, 10, 8, 0, 0⟩, ⟨0, 12, 9, 0, 0⟩] : List Bar).map Bar.high) 1 ∧
      isMinOfWindow el (([⟨0, 10, 8, 0, 0⟩, ⟨0, 12, 9, 0, 0⟩] : List Bar).map Bar.low) 1 ∧
      isMaxOfWindow xh (([⟨0, 10, 8, 0, 0⟩, ⟨0, 12, 9, 0, 0⟩] : List Bar).map Bar.high) 1 ∧
      isMinOfWindow xl (([⟨0, 10, 8, 0, 0⟩, ⟨0, 12, 9, 0, 0⟩] : List Bar).map Bar.low) 1) :=
  ⟨c1_entry_high_is_window_max ⟨1, 1, 1, 1⟩ (by decide) [⟨0, 10, 8, 0, 0⟩]
      ⟨0, 12, 9, 0, 0⟩ (by decide),
   c1_entry_high_is_window_max ⟨1, 1, 1, 1⟩ (by decide)
      [⟨0, 10, 8, 0, 0⟩, ⟨0, 12, 9, 0, 0⟩] ⟨0, 11, 7, 0, 0⟩ (by decide)⟩

/-- C6: `initialized` is true exactly when at least `max_lookback` bars have
been fed; in particular it is false after the first `max_lookback - 1` calls
and becomes true on the `max_lookback`-th call, for every bar sequence. -/
theorem c6_initialized_on_max_lookback (c : HLCfg) (hv : c.valid) (bs : List Bar) :
    (hlRun c bs).initialized = true ↔ c.maxLookback ≤ bs.length := by
  rw [(hl_invariant c hv bs).2.2.2.1]
  simp

/-- Witness for C6 with `max_lookback = 3`: not initialized after 2 bars,
initialized after 3. -/
theorem c6_initialized_on_max_lookback_witness :
    ((hlRun ⟨2, 3, 1, 1⟩ [⟨0, 1, 0, 0, 0⟩, ⟨0, 2, 1, 0, 0⟩]).initialized = true ↔
      HLCfg.maxLookback ⟨2, 3, 1, 1⟩ ≤ 2) ∧
    ((hlRun ⟨2, 3, 1, 1⟩ [⟨0, 1, 0, 0, 0⟩, ⟨0, 2, 1, 0, 0⟩, ⟨0, 3, 2, 0, 0⟩]).initialized = true ↔
      HLCfg.maxLookback ⟨2, 3, 1, 1⟩ ≤ 3) := by
  constructor
  · have h := c6_initialized_on_max_lookback ⟨2, 3, 1, 1⟩ (by decide)
      [⟨0, 1, 0, 0, 0⟩, ⟨0, 2, 1, 0, 0⟩]
    simpa using h
  · have h := c6_initialized_on_max_lookback ⟨2, 3, 1, 1⟩ (by decide)
      [⟨0, 1, 0, 0, 0⟩, ⟨0, 2, 1, 0, 0⟩, ⟨0, 3, 2, 0, 0⟩]
    simpa using h

/-- C7: on the call where `initialized` flips to true (the
`max_lookback`-th bar) `value` is still `none`, and it becomes `some` on the
immediately following call — the one-bar lag. -/
theorem c7_value_lags_initialized (c : HLCfg) (hv : c.valid) (bs : List Bar)
    (hlen : bs.length = c.maxLookback) :
    (hlRun c bs).initialized = true ∧ (hlRun c bs).value = none ∧
    ∀ b : Bar, ((hlRun c (bs ++ [b])).value).isSome = true := by
  obtain ⟨_, _, _, hI, hV, _, _⟩ := hl_invariant c hv bs
  refine ⟨by rw [hI]; simp [hlen], ?_, ?_⟩
  · cases h : (hlRun c bs).value with
    | none => rfl
    | some v =>
      rw [h] at hV
      simp [hlen] at hV
  · intro b
    have hV2 := (hl_invariant c hv (bs ++ [b])).2.2.2.2.1
    rw [hV2]
    simp [hlen]

/-- Witness for C7 with lookbacks (2,3,1,1), `max_lookback = 3`. -/
theorem c7_value_lags_initialized_witness :
    (hlRun ⟨2, 3, 1, 1⟩ [⟨0, 1, 0, 0, 0⟩, ⟨0, 2, 1, 0, 0⟩, ⟨0, 3, 2, 0, 0⟩]).initialized
        = true ∧
    (hlRun ⟨2, 3, 1, 1⟩ [⟨0, 1, 0, 0, 0⟩, ⟨0, 2, 1, 0, 0⟩, ⟨0, 3, 2, 0, 0⟩]).value = none ∧
    ∀ b : Bar,
      ((hlRun ⟨2, 3, 1, 1⟩ ([⟨0, 1, 0, 0, 0⟩, ⟨0, 2, 1, 0, 0⟩, ⟨0, 3, 2, 0, 0⟩] ++ [b])).value).isSome
        = true :=
  c7_value_lags_initialized ⟨2, 3, 1, 1⟩ (by decide)
    [⟨0, 1, 0, 0, 0⟩, ⟨0, 2, 1, 0, 0⟩, ⟨0, 3, 2, 0, 0⟩] (by decide)

/-- C10: if every ingested bar has `high ≥ low`, then whenever `value` is
present each of its high levels is at least each of its low levels, because
every window contains the most recently inserted bar. -/
theorem c10_levels_ordered (c : HLCfg) (hv : c.valid) (bs : List Bar)
    (hb : ∀ bar ∈ bs, bar.low ≤ bar.high) (t : Option ℚ × Option ℚ × Option ℚ × Option ℚ)
    (hval : (hlRun c bs).value = some t) :
    ∃ eh el xh xl, t = (some eh, some el, some xh, some xl) ∧
      el ≤ eh ∧ xl ≤ eh ∧ el ≤ xh ∧ xl ≤ xh := by
  have hm : 0 < c.maxLookback := by
    have := hv.1
    unfold HLCfg.maxLookback
    omega
  have hmL : c.maxLookback < bs.length := by
    have h := (hl_invariant c hv bs).2.2.2.2.1
    rw [hval] at h
    simpa using h.symm
  rcases List.eq_nil_or_concat bs with hnil | ⟨bs0, blast, hbs⟩
  · rw [hnil] at hmL
    simp at hmL
  · subst hbs
    rw [List.concat_eq_append] at hval hmL hb
    have hinit0 : c.maxLookback ≤ bs0.length := by
      simp at hmL
      omega
    obtain ⟨eh, el, xh, xl, hv4, hehw, helw, hxhw, hxlw⟩ :=
      hl_levels c hv bs0 blast hinit0
    rw [hval] at hv4
    refine ⟨eh, el, xh, xl, Option.some_inj.mp hv4, ?_, ?_, ?_, ?_⟩
    all_goals {
      have hL0 : 1 ≤ bs0.length := le_trans hm hinit0
      have hmlh : (bs0.map Bar.high).length = bs0.length := List.length_map _ _
      have hmll : (bs0.map Bar.low).length = bs0.length := List.length_map _ _
      have hhmem : ∀ n, 1 ≤ n → n ≤ c.maxLookback →
          (bs0.map Bar.high).getD (bs0.length - 1 - 0) 0 ∈ lastWindow (bs0.map Bar.high) n := by
        intro n h1 h2
        have h := getD_mem_lastWindow (bs0.map Bar.high) n 0 (by simp; omega) (by omega)
        rwa [hmlh] at h
      have hlmem : ∀ n, 1 ≤ n → n ≤ c.maxLookback →
          (bs0.map Bar.low).getD (bs0.length - 1 - 0) 0 ∈ lastWindow (bs0.map Bar.low) n := by
        intro n h1 h2
        have h := getD_mem_lastWindow (bs0.map Bar.low) n 0 (by simp; omega) (by omega)
        rwa [hmll] at h
      have hbar : bs0.getD (bs0.length - 1) default ∈ bs0 := by
        have : bs0.length - 1 < bs0.length := by omega
        rw [List.getD_eq_getElem _ _ this]
        exact List.getElem_mem this
      have hlowhigh : (bs0.getD (bs0.length - 1) default).low ≤
          (bs0.getD (bs0.length - 1) default).high :=
        hb _ (List.mem_append_left _ hbar)
      have hgd : bs0.length - 1 < bs0.length := by omega
      have hhigh_eq : (bs0.map Bar.high).getD (bs0.length - 1 - 0) 0 =
          (bs0.getD (bs0.length - 1) default).high := by
        rw [List.getD_eq_getElem _ _ (by simpa using hgd), List.getD_eq_getElem _ _ hgd]
        simp
      have hlow_eq : (bs0.map Bar.low).getD (bs0.length - 1 - 0) 0 =
          (bs0.getD (bs0.length - 1) default).low := by
        rw [List.getD_eq_getElem _ _ (by simpa using hgd), List.getD_eq_getElem _ _ hgd]
        simp
      have hEH : (bs0.getD (bs0.length - 1) default).high ≤ eh := by
        rw [← hhigh_eq]
        exact hehw.2 _ (hhmem c.enter_high_lookback (by have := hv.1; omega)
          (by unfold HLCfg.maxLookback; omega))
      have hXH : (bs0.getD (bs0.length - 1) default).high ≤ xh := by
        rw [← hhigh_eq]
        exact hxhw.2 _ (hhmem c.exit_high_lookback (by have := hv.2.2.1; omega)
          (by unfold HLCfg.maxLookback; omega))
      have hEL : el ≤ (bs0.getD (bs0.length - 1) default).low := by
        rw [← hlow_eq]
        exact helw.2 _ (hlmem c.enter_low_lookback (by have := hv.2.1; omega)
          (by unfold HLCfg.maxLookback; omega))
      have hXL : xl ≤ (bs0.getD (bs0.length - 1) default).low := by
        rw [← hlow_eq]
        exact hxlw.2 _ (hlmem c.exit_low_lookback (by have := hv.2.2.2; omega)
          (by unfold HLCfg.maxLookback; omega))
      linarith
    }

/-- Witness for C10: lookbacks (2,3,1,1) and four well-formed bars. -/
theorem c10_levels_ordered_witness :
    ∃ eh el xh xl,
      ((some 12 : Option ℚ), (some 7 : Option ℚ), (some 11 : Option ℚ), (some 7 : Option ℚ)) =
        (some eh, some el, some xh, some xl) ∧
      el ≤ eh ∧ xl ≤ eh ∧ el ≤ xh ∧ xl ≤ xh :=
  c10_levels_ordered ⟨2, 3, 1, 1⟩ (by decide)
    [⟨0, 10, 8, 0, 0⟩, ⟨0, 12, 9, 0, 0⟩, ⟨0, 11, 7, 0, 0⟩, ⟨0, 20, 1, 0, 0⟩]
    (by decide) (some 12, some 7, some 11, some 7) (by decide)

/-! ## MomentumMeanReversionSignal
(`MomentumMeanReversionNautilusIndicator`,
src/indicators/momentum_mean_reversion_nautilus.py) -/

structure MMCfg where
  reversion_window : Nat
  momentum_peak_threshold : ℚ
  overbought_threshold : ℚ
  entry_amplifier : ℚ
  exit_amplifier : ℚ
  deriving DecidableEq, Repr

/-- `self._max_len = max(20, reversion_window)`. -/
def MMCfg.maxLen (c : MMCfg) : Nat := max 20 c.reversion_window

/-- `required = max(20, 10, reversion_window)` in `handle_bar`. -/
def MMCfg.required (c : MMCfg) : Nat := max 20 (max 10 c.reversion_window)

theorem MMCfg.required_eq_maxLen (c : MMCfg) : c.required = c.maxLen := by
  unfold MMCfg.required MMCfg.maxLen
  omega

structure MMState where
  prices : List ℚ
  volumes : List ℚ
  initialized : Bool
  value : Option ℚ
  deriving DecidableEq, Repr

def mmInit : MMState := ⟨[], [], false, none⟩

/-- `mean_price = sum(window[:-1]) / max(len(window) - 1, 1)` where
`window = self._prices[-n:]` is `lastWindow prices n`. -/
def mmWindowMean (c : MMCfg) (prices : List ℚ) : ℚ :=
  ((lastWindow prices c.reversion_window).take
    ((lastWindow prices c.reversion_window).length - 1)).sum /
  ((max ((lastWindow prices c.reversion_window).length - 1) 1 : Nat) : ℚ)

/-- `current = window[-1]`. -/
def mmWindowLast (c : MMCfg) (prices : List ℚ) : ℚ :=
  (lastWindow prices c.reversion_window).getD
    ((lastWindow prices c.reversion_window).length - 1) 0

/-- `_calc_mean_reversion`: the guard, the `mean_price == 0` neutral case,
then the strong/moderate deviation branches, with
`deviation = (current - mean_price) / mean_price` and
`threshold = overbought_threshold / 10000`. -/
def calcMeanReversion (c : MMCfg) (prices : List ℚ) : ℚ :=
  if prices.length < c.reversion_window then 0
  else if mmWindowMean c prices = 0 then 0
  else if c.overbought_threshold / 10000 <
      (mmWindowLast c prices - mmWindowMean c prices) / mmWindowMean c prices then -2
  else if (mmWindowLast c prices - mmWindowMean c prices) / mmWindowMean c prices <
      -(c.overbought_threshold / 10000) then 2
  else if 1 / 1000 <
      |(mmWindowLast c prices - mmWindowMean c prices) / mmWindowMean c prices| then
    -((mmWindowLast c prices - mmWindowMean c prices) / mmWindowMean c prices) * 10
  else 0

/-- `_calc_momentum`. -/
def calcMomentum (prices volumes : List ℚ) : ℚ :=
  if prices.length < 10 then 0 else
  let recent_prices := prices.drop (prices.length - 5)
  let recent_volumes := volumes.drop (volumes.length - 5)
  let older_prices := (prices.drop (prices.length - 10)).take 5
  let older_volumes := (volumes.drop (volumes.length - 10)).take 5
  let sum_recent_vol := recent_volumes.sum
  let sum_older_vol := older_volumes.sum
  let vwap_recent :=
    if 0 < sum_recent_vol then
      (List.zipWith (· * ·) recent_prices recent_volumes).sum / sum_recent_vol
    else recent_prices.sum / 5
  let vwap_older :=
    if 0 < sum_older_vol then
      (List.zipWith (· * ·) older_prices older_volumes).sum / sum_older_vol
    else older_prices.sum / 5
  if vwap_older = 0 then 0 else
  let momentum := (vwap_recent - vwap_older) / vwap_older
  let tail := if 20 ≤ volumes.length then volumes.drop (volumes.length - 20) else volumes
  let base := if tail ≠ [] then tail.sum / (tail.length : ℚ) else 1
  let recent3 := if 3 ≤ volumes.length then volumes.drop (volumes.length - 3) else volumes
  let vol_factor := (recent3.sum / (max recent3.length 1 : Nat)) / max base 1
  momentum * 1500 * min vol_factor 5

/-- The value computed once initialized: reversion with priority, else
momentum. -/
def mmCompute (c : MMCfg) (ps vs : List ℚ) : ℚ :=
  let reversion := calcMeanReversion c ps
  if reversion ≠ 0 then reversion * c.exit_amplifier
  else calcMomentum ps vs * c.entry_amplifier

/-- The ingest phase of `handle_bar`: `_append` (append then pop the oldest
entry when over capacity, keyed on the price list) followed by the
`initialized` update. -/
def mmIngest (c : MMCfg) (bar : Bar) (s : MMState) : MMState :=
  { prices := if c.maxLen < (s.prices ++ [bar.close]).length
      then (s.prices ++ [bar.close]).drop 1 else s.prices ++ [bar.close],
    volumes := if c.maxLen < (s.prices ++ [bar.close]).length
      then (s.volumes ++ [bar.volume]).drop 1 else s.volumes ++ [bar.volume],
    initialized := if !s.initialized && decide (c.required ≤
        (if c.maxLen < (s.prices ++ [bar.close]).length
          then (s.prices ++ [bar.close]).drop 1 else s.prices ++ [bar.close]).length)
      then true else s.initialized,
    value := s.value }

def mmHandleBar (c : MMCfg) (bar : Bar) (s : MMState) : MMState :=
  if !(mmIngest c bar s).initialized then mmIngest c bar s
  else { mmIngest c bar s with
    value := some (mmCompute c (mmIngest c bar s).prices (mmIngest c bar s).volumes) }

def mmReset (_s : MMState) : MMState := mmInit

def mmRun (c : MMCfg) (bs : List Bar) : MMState :=
  bs.foldl (fun s b => mmHandleBar c b s) mmInit

theorem mmRun_append (c : MMCfg) (bs : List Bar) (b : Bar) :
    mmRun c (bs ++ [b]) = mmHandleBar c b (mmRun c bs) := by
  simp [mmRun, List.foldl_append]

/-- State invariant: the price/volume histories are the most recent
`max_len` closes/volumes, `initialized` holds after `max_len` bars, and from
then on `value` is the computed signal of the current window. -/
theorem mm_invariant (c : MMCfg) (bs : List Bar) :
    (mmRun c bs).prices = (bs.map Bar.close).drop (bs.length - c.maxLen) ∧
    (mmRun c bs).volumes = (bs.map Bar.volume).drop (bs.length - c.maxLen) ∧
    (mmRun c bs).initialized = decide (c.maxLen ≤ bs.length) ∧
    (c.maxLen ≤ bs.length →
      (mmRun c bs).value = some (mmCompute c (mmRun c bs).prices (mmRun c bs).volumes)) := by
  have hml : 0 < c.maxLen := by unfold MMCfg.maxLen; omega
  induction bs using List.reverseRecOn with
  | nil =>
    refine ⟨by simp [mmRun, mmInit], by simp [mmRun, mmInit], by simp [mmRun, mmInit]; omega,
      fun h => absurd h (by simp; omega)⟩
  | append_singleton bs b ih =>
    obtain ⟨ihP, ihV, ihI, ihval⟩ := ih
    set L := bs.length with hL
    have hlen : (bs ++ [b]).length = L + 1 := by simp
    have hmapP : ((bs ++ [b]).map Bar.close) = bs.map Bar.close ++ [b.close] := by simp
    have hmapV : ((bs ++ [b]).map Bar.volume) = bs.map Bar.volume ++ [b.volume] := by simp
    have hlenP : (bs.map Bar.close).length = L := by simp
    have hlenV : (bs.map Bar.volume).length = L := by simp
    -- the updated histories
    have hP2 : (if c.maxLen < ((mmRun c bs).prices ++ [b.close]).length
          then ((mmRun c bs).prices ++ [b.close]).drop 1
          else (mmRun c bs).prices ++ [b.close]) =
        ((bs ++ [b]).map Bar.close).drop ((bs ++ [b]).length - c.maxLen) := by
      rw [ihP, hmapP, hlen]
      have hplen : ((bs.map Bar.close).drop (L - c.maxLen)).length = L - (L - c.maxLen) := by
        simp
      by_cases hc : c.maxLen < L - (L - c.maxLen) + 1
      · have hLm : c.maxLen ≤ L := by omega
        rw [if_pos (by rw [List.length_append, hplen]; simpa using hc)]
        rw [List.drop_append_of_le_length (by rw [hplen]; omega), List.drop_drop]
        rw [List.drop_append_of_le_length (by rw [hlenP]; omega)]
        rw [show L - c.maxLen + 1 = L + 1 - c.maxLen by omega]
      · have hLm : L < c.maxLen := by omega
        rw [if_neg (by rw [List.length_append, hplen]; simpa using hc)]
        rw [show L - c.maxLen = 0 by omega, show L + 1 - c.maxLen = 0 by omega]
        simp
    have hV2 : (if c.maxLen < ((mmRun c bs).prices ++ [b.close]).length
          then ((mmRun c bs).volumes ++ [b.volume]).drop 1
          else (mmRun c bs).volumes ++ [b.volume]) =
        ((bs ++ [b]).map Bar.volume).drop ((bs ++ [b]).length - c.maxLen) := by
      rw [ihP, ihV, hmapV, hlen]
      have hplen : ((bs.map Bar.close).drop (L - c.maxLen)).length = L - (L - c.maxLen) := by
        simp
      have hplenV : ((bs.map Bar.volume).drop (L - c.maxLen)).length = L - (L - c.maxLen) := by
        simp
      by_cases hc : c.maxLen < L - (L - c.maxLen) + 1
      · have hLm : c.maxLen ≤ L := by omega
        rw [if_pos (by rw [List.length_append, hplen]; simpa using hc)]
        rw [List.drop_append_of_le_length (by rw [hplenV]; omega), List.drop_drop]
        rw [List.drop_append_of_le_length (by rw [hlenV]; omega)]
        rw [show L - c.maxLen + 1 = L + 1 - c.maxLen by omega]
      · have hLm : L < c.maxLen := by omega
        rw [if_neg (by rw [List.length_append, hplen]; simpa using hc)]
        rw [show L - c.maxLen = 0 by omega, show L + 1 - c.maxLen = 0 by omega]
        simp
    have hs1P : (mmIngest c b (mmRun c bs)).prices =
        ((bs ++ [b]).map Bar.close).drop ((bs ++ [b]).length - c.maxLen) := by
      simp only [mmIngest]
      exact hP2
    have hs1V : (mmIngest c b (mmRun c bs)).volumes =
        ((bs ++ [b]).map Bar.volume).drop ((bs ++ [b]).length - c.maxLen) := by
      simp only [mmIngest]
      exact hV2
    have hs1I : (mmIngest c b (mmRun c bs)).initialized = decide (c.maxLen ≤ L + 1) := by
      simp only [mmIngest]
      rw [ihI, MMCfg.required_eq_maxLen]
      have hdlen : (if c.maxLen < ((mmRun c bs).prices ++ [b.close]).length
            then ((mmRun c bs).prices ++ [b.close]).drop 1
            else (mmRun c bs).prices ++ [b.close]).length
          = (L + 1) - ((L + 1) - c.maxLen) := by
        rw [hP2]
        simp [hlen]
      rw [hdlen]
      by_cases h1 : c.maxLen ≤ L
      · have h2 : c.maxLen ≤ L + 1 := by omega
        simp [h1, h2]
      · by_cases h2 : c.maxLen ≤ L + 1
        · have h3 : c.maxLen ≤ (L + 1) - ((L + 1) - c.maxLen) := by omega
          simp [h1, h2, h3]
        · have h3 : ¬ (c.maxLen ≤ (L + 1) - ((L + 1) - c.maxLen)) := by omega
          simp [h1, h2, h3]
    have hs1val : (mmIngest c b (mmRun c bs)).value = (mmRun c bs).value := rfl
    rw [mmRun_append]
    by_cases hinit : c.maxLen ≤ L + 1
    · have hI1 : (mmIngest c b (mmRun c bs)).initialized = true := by
        rw [hs1I]
        simpa using hinit
      have hHB : mmHandleBar c b (mmRun c bs) = { mmIngest c b (mmRun c bs) with
          value := some (mmCompute c (mmIngest c b (mmRun c bs)).prices
            (mmIngest c b (mmRun c bs)).volumes) } := by
        unfold mmHandleBar
        rw [hI1]
        simp
      rw [hHB]
      refine ⟨by simpa [hlen] using hs1P, by simpa [hlen] using hs1V, ?_, fun _ => ?_⟩
      · simp only [hlen]
        rw [show ({ mmIngest c b (mmRun c bs) with
          value := some (mmCompute c (mmIngest c b (mmRun c bs)).prices
            (mmIngest c b (mmRun c bs)).volumes) } : MMState).initialized
          = (mmIngest c b (mmRun c bs)).initialized from rfl, hs1I]
      · rfl
    · have hI1 : (mmIngest c b (mmRun c bs)).initialized = false := by
        rw [hs1I]
        simpa using hinit
      have hHB : mmHandleBar c b (mmRun c bs) = mmIngest c b (mmRun c bs) := by
        unfold mmHandleBar
        rw [hI1]
        simp
      rw [hHB]
      refine ⟨by simpa [hlen] using hs1P, by simpa [hlen] using hs1V, ?_, fun h => ?_⟩
      · rw [hs1I]
        simp only [hlen]
      · rw [hlen] at h
        exact absurd h hinit
theorem lastWindow_drop (l : List ℚ) (n k : Nat) (hnk : n ≤ k) :
    lastWindow (lastWindow l k) n = lastWindow l n := by
  unfold lastWindow
  rw [List.length_drop, List.drop_drop]
  congr 1
  omega

theorem mmWindowMean_congr (c : MMCfg) {l1 l2 : List ℚ}
    (h : lastWindow l1 c.reversion_window = lastWindow l2 c.reversion_window) :
    mmWindowMean c l1 = mmWindowMean c l2 := by
  unfold mmWindowMean
  rw [h]

theorem mmWindowLast_congr (c : MMCfg) {l1 l2 : List ℚ}
    (h : lastWindow l1 c.reversion_window = lastWindow l2 c.reversion_window) :
    mmWindowLast c l1 = mmWindowLast c l2 := by
  unfold mmWindowLast
  rw [h]

/-- When the most recent price exceeds the window mean by more than the
threshold (in the positive-mean sense), `_calc_mean_reversion` returns the
strong sell value `-2`. -/
theorem calcMeanReversion_strong_sell (c : MMCfg) (prices : List ℚ)
    (hlen : c.reversion_window ≤ prices.length)
    (hmean : 0 < mmWindowMean c prices)
    (hdev : c.overbought_threshold / 10000 * mmWindowMean c prices <
      mmWindowLast c prices - mmWindowMean c prices) :
    calcMeanReversion c prices = -2 := by
  unfold calcMeanReversion
  rw [if_neg (by omega), if_neg (ne_of_gt hmean), if_pos ((lt_div_iff hmean).mpr hdev)]

/-- After any run long enough to initialize in which the last-window
condition holds, the emitted value is the strong sell scaled by
`exit_amplifier`. -/
theorem mm_strong_sell_value (c : MMCfg) (hn : 2 ≤ c.reversion_window) (bs : List Bar)
    (hL : c.maxLen ≤ bs.length)
    (hmean : 0 < mmWindowMean c (bs.map Bar.close))
    (hdev : c.overbought_threshold / 10000 * mmWindowMean c (bs.map Bar.close) <
      mmWindowLast c (bs.map Bar.close) - mmWindowMean c (bs.map Bar.close)) :
    (mmRun c bs).value = some (-2 * c.exit_amplifier) := by
  obtain ⟨hP, hV, hI, hval⟩ := mm_invariant c bs
  have hnml : c.reversion_window ≤ c.maxLen := by
    unfold MMCfg.maxLen
    omega
  have hprices : (mmRun c bs).prices = lastWindow (bs.map Bar.close) c.maxLen := by
    rw [hP]
    unfold lastWindow
    rw [List.length_map]
  have hw : lastWindow ((mmRun c bs).prices) c.reversion_window =
      lastWindow (bs.map Bar.close) c.reversion_window := by
    rw [hprices, lastWindow_drop _ _ _ hnml]
  have hplen : c.reversion_window ≤ (mmRun c bs).prices.length := by
    rw [hP]
    simp only [List.length_drop, List.length_map]
    omega
  have hrev : calcMeanReversion c (mmRun c bs).prices = -2 := by
    apply calcMeanReversion_strong_sell c _ hplen
    · rw [mmWindowMean_congr c hw]
      exact hmean
    · rw [mmWindowMean_congr c hw, mmWindowLast_congr c hw]
      exact hdev
  rw [hval hL]
  unfold mmCompute
  rw [hrev, if_pos (by norm_num)]

/-- C3: for an initialized MomentumMeanReversionSignal whose most recent
price exceeds the (positive) mean of the other `reversion_window - 1`
prices by more than `overbought_threshold` basis points, the emitted value
is `-2 * exit_amplifier` (negative when `exit_amplifier > 0`), and it is
identical for any other history agreeing on the last `reversion_window`
closes — independent of all volumes and of older prices. -/
theorem c3_reversion_priority (c : MMCfg) (hn : 2 ≤ c.reversion_window)
    (hamp : 0 < c.exit_amplifier) (bs1 : List Bar) (hL1 : c.maxLen ≤ bs1.length)
    (hmean : 0 < mmWindowMean c (bs1.map Bar.close))
    (hdev : c.overbought_threshold / 10000 * mmWindowMean c (bs1.map Bar.close) <
      mmWindowLast c (bs1.map Bar.close) - mmWindowMean c (bs1.map Bar.close)) :
    (mmRun c bs1).value = some (-2 * c.exit_amplifier) ∧
    (-2 * c.exit_amplifier < 0) ∧
    ∀ bs2 : List Bar, c.maxLen ≤ bs2.length →
      lastWindow (bs2.map Bar.close) c.reversion_window =
        lastWindow (bs1.map Bar.close) c.reversion_window →
      (mmRun c bs2).value = (mmRun c bs1).value := by
  refine ⟨mm_strong_sell_value c hn bs1 hL1 hmean hdev, by linarith, ?_⟩
  intro bs2 hL2 hwin
  rw [mm_strong_sell_value c hn bs1 hL1 hmean hdev,
    mm_strong_sell_value c hn bs2 hL2
      (by rw [mmWindowMean_congr c hwin]; exact hmean)
      (by rw [mmWindowMean_congr c hwin, mmWindowLast_congr c hwin]; exact hdev)]

/-- Witness for C3: window 2, threshold 100 bps, 19 closes at 100 followed
by one at 200; deviation 100 % ≫ 1 %. -/
theorem c3_reversion_priority_witness :
    (mmRun ⟨2, 1, 100, 2, 1⟩
        (List.replicate 19 (⟨0, 0, 0, 100, 5⟩ : Bar) ++ [⟨0, 0, 0, 200, 5⟩])).value =
      some (-2 * 1) ∧
    ((-2 : ℚ) * 1 < 0) :=
  ⟨(c3_reversion_priority ⟨2, 1, 100, 2, 1⟩ (by decide) (by decide)
      (List.replicate 19 (⟨0, 0, 0, 100, 5⟩ : Bar) ++ [⟨0, 0, 0, 200, 5⟩])
      (by decide)
      (by norm_num [mmWindowMean, lastWindow, List.replicate, mmWindowLast])
      (by norm_num [mmWindowMean, lastWindow, List.replicate, mmWindowLast])).1,
   (c3_reversion_priority ⟨2, 1, 100, 2, 1⟩ (by decide) (by decide)
      (List.replicate 19 (⟨0, 0, 0, 100, 5⟩ : Bar) ++ [⟨0, 0, 0, 200, 5⟩])
      (by decide)
      (by norm_num [mmWindowMean, lastWindow, List.replicate, mmWindowLast])
      (by norm_num [mmWindowMean, lastWindow, List.replicate, mmWindowLast])).2.1⟩

/-! ## EmaRegimeSignal, batch EMA (`EMAIndicator._calculate_ema`,
src/indicators/ema_indicator.py) -/

/-- One step of the EMA recurrence `ema = price*k + ema*(1-k)`. -/
def emaStep (k e p : ℚ) : ℚ := p * k + e * (1 - k)

/-- `_calculate_ema`: seed with the simple average of the `P` prices at the
start of the last `min(len, 2*P)` prices, then fold the recurrence over the
remainder (the source recomputes from a window of at most `2*P` prices). -/
def calcEma (P : Nat) (prices : List ℚ) : ℚ :=
  if prices.length < P then 0
  else
    (prices.drop (prices.length - min prices.length (2 * P) + P)).foldl
      (emaStep (2 / ((P : ℚ) + 1)))
      (((prices.drop (prices.length - min prices.length (2 * P))).take P).sum / (P : ℚ))

/-- The spec's "standard EMA recurrence applied to the whole sequence":
seed with the simple average of the first `P` prices, then apply
`ema = price*k + ema*(1-k)` with `k = 2/(P+1)` to every later price. -/
def standardEma (P : Nat) (prices : List ℚ) : ℚ :=
  (prices.drop P).foldl (emaStep (2 / ((P : ℚ) + 1))) ((prices.take P).sum / (P : ℚ))

theorem foldl_emaStep_replicate (k x : ℚ) (m : Nat) :
    (List.replicate m x).foldl (emaStep k) x = x := by
  induction m with
  | zero => rfl
  | succ m ih =>
    rw [List.replicate_succ, List.foldl_cons]
    have hx : emaStep k x x = x := by
      unfold emaStep
      ring
    rw [hx, ih]

theorem calcEma_replicate (P n : Nat) (hP : 1 ≤ P) (hn : P ≤ n) (x : ℚ) :
    calcEma P (List.replicate n x) = x := by
  unfold calcEma
  rw [if_neg (by simp; omega)]
  simp only [List.length_replicate, List.drop_replicate, List.take_replicate]
  have hmin : min P (n - (n - min n (2 * P))) = P := by omega
  rw [hmin, List.sum_replicate, nsmul_eq_mul]
  have hseed : (P : ℚ) * x / (P : ℚ) = x := by
    rw [mul_comm, mul_div_assoc, div_self (by positivity), mul_one]
  rw [hseed, foldl_emaStep_replicate]

/-- C5 counterexample: for `P = 2` and the five prices
`[100, 0, 0, 0, 0]` (length `5 > 2*P`), the code's EMA (`0`) differs from
the standard recurrence applied to the whole sequence (`50/27`), because
the code re-seeds from a window of at most `2*P` prices. -/
theorem c5_counterexample_window :
    calcEma 2 [100, 0, 0, 0, 0] ≠ standardEma 2 [100, 0, 0, 0, 0] := by
  norm_num [calcEma, standardEma, emaStep]

/-- C5 (amended): the computed EMA equals the standard recurrence applied
to the last `min(len, 2*P)` prices; when the sequence is no longer than
`2*P` this is the whole sequence (the original claim); and on a constant
sequence the EMA equals that constant. -/
theorem c5_ema_recurrence (P : Nat) (hP : 1 ≤ P) (prices : List ℚ)
    (hlen : P ≤ prices.length) :
    calcEma P prices =
      standardEma P (prices.drop (prices.length - min prices.length (2 * P))) ∧
    (prices.length ≤ 2 * P → calcEma P prices = standardEma P prices) ∧
    (∀ x : ℚ, prices = List.replicate prices.length x → calcEma P prices = x) := by
  have hwin : calcEma P prices =
      standardEma P (prices.drop (prices.length - min prices.length (2 * P))) := by
    unfold calcEma standardEma
    rw [if_neg (by omega), List.drop_drop]
  refine ⟨hwin, ?_, ?_⟩
  · intro h2
    rw [hwin]
    have : prices.length - min prices.length (2 * P) = 0 := by omega
    rw [this, List.drop_zero]
  · intro x hx
    rw [hx]
    exact calcEma_replicate P prices.length hP hlen x

/-- Witness for the amended C5 at `P = 2`, prices `[100, 0, 0, 0, 0]`. -/
theorem c5_ema_recurrence_witness :
    (calcEma 2 [100, 0, 0, 0, 0] =
      standardEma 2 (([100, 0, 0, 0, 0] : List ℚ).drop
        (([100, 0, 0, 0, 0] : List ℚ).length - min ([100, 0, 0, 0, 0] : List ℚ).length (2 * 2))) ∧
    (([100, 0, 0, 0, 0] : List ℚ).length ≤ 2 * 2 →
      calcEma 2 [100, 0, 0, 0, 0] = standardEma 2 [100, 0, 0, 0, 0]) ∧
    (∀ x : ℚ, ([100, 0, 0, 0, 0] : List ℚ) = List.replicate ([100, 0, 0, 0, 0] : List ℚ).length x →
      calcEma 2 [100, 0, 0, 0, 0] = x)) :=
  c5_ema_recurrence 2 (by decide) [100, 0, 0, 0, 0] (by decide)

/-! ## RenkoTrendSignal (`RenkoTrendNautilusIndicator`,
src/indicators/renko_trend_nautilus.py) -/

inductive RMethod | atr | traditional
  deriving DecidableEq, Repr

inductive RSource | close | hl
  deriving DecidableEq, Repr

structure RenkoCfg where
  method : RMethod
  atr_period : Nat
  brick_size : ℚ
  source : RSource
  reversal : Nat
  tick_size : Option ℚ
  deriving DecidableEq, Repr

/-- Constructor validation in `__init__`. -/
def RenkoCfg.valid (c : RenkoCfg) : Prop :=
  0 < c.atr_period ∧ 0 < c.brick_size ∧ 0 < c.reversal

instance (c : RenkoCfg) : Decidable c.valid := by unfold RenkoCfg.valid; infer_instance

structure RenkoState where
  prev_close : Option ℚ
  tr_window : List ℚ
  atr : Option ℚ
  box : Option ℚ
  begin_price : Option ℚ
  trend : Int
  iopen : Option ℚ
  iclose : Option ℚ
  initialized : Bool
  value : Option Int
  deriving DecidableEq, Repr

def renkoInit : RenkoState := ⟨none, [], none, none, none, 0, none, none, false, none⟩

def RenkoCfg.minTick (c : RenkoCfg) : ℚ := c.tick_size.getD 0

/-- Python `round` (round half to even), used by `_quantize`. -/
def pyRound (q : ℚ) : Int :=
  if q - ⌊q⌋ < 1 / 2 then ⌊q⌋
  else if 1 / 2 < q - ⌊q⌋ then ⌊q⌋ + 1
  else if ⌊q⌋ % 2 = 0 then ⌊q⌋ else ⌊q⌋ + 1

/-- `_quantize`: round to a positive multiple of the tick when one is set,
else clamp away from zero at `1e-12`. -/
def quantize (c : RenkoCfg) (v : ℚ) : ℚ :=
  if c.minTick ≠ 0 ∧ 0 < c.minTick then max ((pyRound (v / c.minTick) : ℚ) * c.minTick) c.minTick
  else max v (1 / 10 ^ 12)

/-- `_update_atr`: true range, SMA seed over the first `atr_period` values,
then Wilder smoothing. -/
def updateAtr (c : RenkoCfg) (high low close : ℚ) (s : RenkoState) : RenkoState :=
  let tr := match s.prev_close with
    | none => |high - low|
    | some pc => max (high - low) (max |high - pc| |low - pc|)
  let s2 := match s.atr with
    | none =>
      let w1 := s.tr_window ++ [tr]
      let w2 := if c.atr_period < w1.length then w1.drop 1 else w1
      if w2.length = c.atr_period then
        { s with tr_window := w2, atr := some (w2.sum / (c.atr_period : ℚ)) }
      else { s with tr_window := w2 }
    | some a => { s with atr := some ((a * ((c.atr_period : ℚ) - 1) + tr) / (c.atr_period : ℚ)) }
  { s2 with prev_close := some close }

/-- The `_trend == 0` block: establish the initial trend. Locals `box`,
`begin` and `current_price` were computed before this block. -/
def renkoEstablish (c : RenkoCfg) (box bg currentPrice : ℚ) (s : RenkoState) : RenkoState :=
  if s.trend = 0 then
    if box * (c.reversal : ℚ) ≤ |bg - currentPrice| then
      if currentPrice < bg then
        { s with iopen := some bg,
                 iclose := some (bg - (⌊|bg - currentPrice| / box⌋ : ℚ) * box), trend := -1 }
      else if bg < currentPrice then
        { s with iopen := some bg,
                 iclose := some (bg + (⌊|bg - currentPrice| / box⌋ : ℚ) * box), trend := 1 }
      else s
    else s
  else s

/-- `temp_price = close if source == 'close' else high` (reversal test out
of a downtrend). -/
def renkoTempUp (c : RenkoCfg) (close high : ℚ) : ℚ :=
  match c.source with | RSource.close => close | RSource.hl => high

/-- `temp_price = close if source == 'close' else low` (reversal test out
of an uptrend). -/
def renkoTempDown (c : RenkoCfg) (close low : ℚ) : ℚ :=
  match c.source with | RSource.close => close | RSource.hl => low

/-- The `_trend == -1 / _trend == 1` block: continuation first, else
reversal, using the locals captured before the block. -/
def renkoContinue (c : RenkoCfg) (box bg currentPrice close high low : ℚ)
    (s : RenkoState) : RenkoState :=
  if s.trend = -1 then
    if currentPrice < bg ∧ box ≤ |bg - currentPrice| then
      { s with iclose := some (bg - (⌊|bg - currentPrice| / box⌋ : ℚ) * box), trend := -1,
               begin_price := some (bg - (⌊|bg - currentPrice| / box⌋ : ℚ) * box) }
    else
      if bg < renkoTempUp c close high ∧
          box * (c.reversal : ℚ) ≤ |bg - renkoTempUp c close high| then
        { s with iopen := some (bg + box),
                 iclose := some (bg + (⌊|bg - renkoTempUp c close high| / box⌋ : ℚ) * box),
                 trend := 1,
                 begin_price :=
                   some (bg + (⌊|bg - renkoTempUp c close high| / box⌋ : ℚ) * box) }
      else s
  else if s.trend = 1 then
    if bg < currentPrice ∧ box ≤ |bg - currentPrice| then
      { s with iclose := some (bg + (⌊|bg - currentPrice| / box⌋ : ℚ) * box), trend := 1,
               begin_price := some (bg + (⌊|bg - currentPrice| / box⌋ : ℚ) * box) }
    else
      if renkoTempDown c close low < bg ∧
          box * (c.reversal : ℚ) ≤ |bg - renkoTempDown c close low| then
        { s with iopen := some (bg - box),
                 iclose := some (bg - (⌊|bg - renkoTempDown c close low| / box⌋ : ℚ) * box),
                 trend := -1,
                 begin_price :=
                   some (bg - (⌊|bg - renkoTempDown c close low| / box⌋ : ℚ) * box) }
      else s
  else s

/-- Re-derive the box from ATR when a brick closed (ATR mode). -/
def renkoRequant (c : RenkoCfg) (icPrev : Option ℚ) (s : RenkoState) : RenkoState :=
  if c.method = RMethod.atr ∧ s.iclose.isSome ∧ icPrev.isSome ∧ s.iclose ≠ icPrev ∧
      s.atr.isSome
  then { s with box := some (quantize c (s.atr.getD 0)) } else s

/-- Emit `value = trend` and set `initialized` once a trend exists. -/
def renkoEmit (s : RenkoState) : RenkoState :=
  if s.trend = -1 ∨ s.trend = 1 then { s with value := some s.trend, initialized := true }
  else s

/-- `if self._begin_price is None: self._begin_price = (open_ // box) * box`. -/
def renkoBeginSet (open_ box : ℚ) (s : RenkoState) : RenkoState :=
  if s.begin_price.isNone then { s with begin_price := some ((⌊open_ / box⌋ : ℚ) * box) }
  else s

/-- `current_price = close if source == 'close' else (high if trend == 1 else low)`. -/
def renkoCP (c : RenkoCfg) (high low : ℚ) (t : Int) (close : ℚ) : ℚ :=
  match c.source with
  | RSource.close => close
  | RSource.hl => if t = 1 then high else low

/-- The part of `handle_bar` after a box size is available: the `box <= 0`
early return, begin-price initialization, then establish / continue-or-
reverse / ATR re-quantization / emit, all over the locals captured once. -/
def renkoAfterBox (c : RenkoCfg) (high low close open_ : ℚ) (s2 : RenkoState) : RenkoState :=
  if s2.box.getD 0 ≤ 0 then s2
  else
    renkoEmit (renkoRequant c (renkoBeginSet open_ (s2.box.getD 0) s2).iclose
      (renkoContinue c (s2.box.getD 0)
        ((renkoBeginSet open_ (s2.box.getD 0) s2).begin_price.getD 0)
        (renkoCP c high low (renkoBeginSet open_ (s2.box.getD 0) s2).trend close)
        close high low
        (renkoEstablish c (s2.box.getD 0)
          ((renkoBeginSet open_ (s2.box.getD 0) s2).begin_price.getD 0)
          (renkoCP c high low (renkoBeginSet open_ (s2.box.getD 0) s2).trend close)
          (renkoBeginSet open_ (s2.box.getD 0) s2))))

def renkoHandleBar (c : RenkoCfg) (bar : Bar) (s : RenkoState) : RenkoState :=
  let s1 := updateAtr c bar.high bar.low bar.close s
  match s1.box with
  | some _ => renkoAfterBox c bar.high bar.low bar.close bar.open_ s1
  | none =>
    match c.method with
    | RMethod.atr =>
      match s1.atr with
      | none => s1
      | some a => renkoAfterBox c bar.high bar.low bar.close bar.open_
          { s1 with box := some (quantize c a) }
    | RMethod.traditional => renkoAfterBox c bar.high bar.low bar.close bar.open_
        { s1 with box := some (max c.brick_size c.minTick) }

def renkoReset (_s : RenkoState) : RenkoState := renkoInit

def renkoRun (c : RenkoCfg) (bs : List Bar) : RenkoState :=
  bs.foldl (fun s b => renkoHandleBar c b s) renkoInit

theorem renkoRun_append (c : RenkoCfg) (bs : List Bar) (b : Bar) :
    renkoRun c (bs ++ [b]) = renkoHandleBar c b (renkoRun c bs) := by
  simp [renkoRun, List.foldl_append]

/-- The up-move reference price used by the reversal test out of a
downtrend (`temp_price = close if source == 'close' else high`). -/
def refUp (c : RenkoCfg) (b : Bar) : ℚ :=
  match c.source with | RSource.close => b.close | RSource.hl => b.high

/-- The down-move reference price used by the reversal test out of an
uptrend (`temp_price = close if source == 'close' else low`). -/
def refDown (c : RenkoCfg) (b : Bar) : ℚ :=
  match c.source with | RSource.close => b.close | RSource.hl => b.low

theorem quantize_pos (c : RenkoCfg) (v : ℚ) : 0 < quantize c v := by
  unfold quantize
  split
  · next h => exact lt_of_lt_of_le h.2 (le_max_right _ _)
  · exact lt_of_lt_of_le (by positivity) (le_max_right _ _)

theorem updateAtr_fields (c : RenkoCfg) (h l cl : ℚ) (s : RenkoState) :
    (updateAtr c h l cl s).box = s.box ∧
    (updateAtr c h l cl s).begin_price = s.begin_price ∧
    (updateAtr c h l cl s).trend = s.trend ∧
    (updateAtr c h l cl s).value = s.value ∧
    (updateAtr c h l cl s).iclose = s.iclose ∧
    (updateAtr c h l cl s).initialized = s.initialized := by
  rcases hA : s.atr with _ | a
  · simp only [updateAtr, hA]
    split <;> split <;> simp
  · simp [updateAtr, hA]

theorem renkoBeginSet_fields (op bx : ℚ) (s2 : RenkoState) :
    (renkoBeginSet op bx s2).trend = s2.trend ∧
    (renkoBeginSet op bx s2).box = s2.box ∧
    (renkoBeginSet op bx s2).iclose = s2.iclose ∧
    (renkoBeginSet op bx s2).atr = s2.atr ∧
    (renkoBeginSet op bx s2).begin_price.isSome = true := by
  unfold renkoBeginSet
  split
  · simp
  · next h =>
    refine ⟨rfl, rfl, rfl, rfl, ?_⟩
    rw [Option.isNone_iff_eq_none] at h
    exact Option.isSome_iff_ne_none.mpr h

theorem renkoBeginSet_of_isSome (op bx : ℚ) (s2 : RenkoState)
    (h : s2.begin_price.isSome = true) : renkoBeginSet op bx s2 = s2 := by
  unfold renkoBeginSet
  rw [if_neg]
  rw [Option.isNone_iff_eq_none]
  exact Option.isSome_iff_ne_none.mp h

theorem renkoEstablish_of_ne (c : RenkoCfg) (box bg cp : ℚ) (s : RenkoState)
    (h : s.trend ≠ 0) : renkoEstablish c box bg cp s = s := by
  unfold renkoEstablish
  rw [if_neg h]

theorem renkoEstablish_trend (c : RenkoCfg) (box bg cp : ℚ) (s : RenkoState) :
    (renkoEstablish c box bg cp s).trend = s.trend ∨
    (renkoEstablish c box bg cp s).trend = 1 ∨
    (renkoEstablish c box bg cp s).trend = -1 := by
  unfold renkoEstablish
  split
  · split
    · split
      · simp
      · split <;> simp
    · simp
  · simp

theorem renkoEstablish_box (c : RenkoCfg) (box bg cp : ℚ) (s : RenkoState) :
    (renkoEstablish c box bg cp s).box = s.box ∧
    (renkoEstablish c box bg cp s).begin_price = s.begin_price := by
  unfold renkoEstablish
  split
  · split
    · split
      · simp
      · split <;> simp
    · simp
  · simp

theorem renkoContinue_trend (c : RenkoCfg) (box bg cp cl h l : ℚ) (s : RenkoState)
    (ht : s.trend = 1 ∨ s.trend = -1) :
    (renkoContinue c box bg cp cl h l s).trend = 1 ∨
    (renkoContinue c box bg cp cl h l s).trend = -1 := by
  unfold renkoContinue
  rcases ht with ht | ht
  · rw [ht]
    norm_num
    split
    · simp
    · split
      · simp
      · exact Or.inl ht
  · rw [ht]
    norm_num
    split
    · simp
    · split
      · simp
      · exact Or.inr ht

theorem renkoContinue_box (c : RenkoCfg) (box bg cp cl h l : ℚ) (s : RenkoState) :
    (renkoContinue c box bg cp cl h l s).box = s.box := by
  unfold renkoContinue
  repeat' split
  all_goals try dsimp only
  all_goals (try split_ifs) <;> simp

theorem renkoContinue_begin_isSome (c : RenkoCfg) (box bg cp cl h l : ℚ) (s : RenkoState)
    (hb : s.begin_price.isSome = true) :
    (renkoContinue c box bg cp cl h l s).begin_price.isSome = true := by
  unfold renkoContinue
  repeat' split
  all_goals try dsimp only
  all_goals (try split_ifs) <;> simp [hb]

theorem renkoRequant_fields (c : RenkoCfg) (ic : Option ℚ) (s : RenkoState) :
    (renkoRequant c ic s).trend = s.trend ∧
    (renkoRequant c ic s).begin_price = s.begin_price ∧
    (renkoRequant c ic s).value = s.value := by
  unfold renkoRequant
  split <;> simp

theorem renkoRequant_box (c : RenkoCfg) (ic : Option ℚ) (s : RenkoState) (b' : ℚ)
    (hb : (renkoRequant c ic s).box = some b') (hs : ∀ x, s.box = some x → 0 < x) :
    0 < b' := by
  unfold renkoRequant at hb
  split at hb
  · simp at hb
    rw [← hb]
    exact quantize_pos c _
  · exact hs b' hb

theorem renkoEmit_spec (s : RenkoState) (ht : s.trend = 1 ∨ s.trend = -1) :
    (renkoEmit s).value = some s.trend ∧ (renkoEmit s).trend = s.trend ∧
    (renkoEmit s).box = s.box ∧ (renkoEmit s).begin_price = s.begin_price ∧
    (renkoEmit s).initialized = true := by
  unfold renkoEmit
  rw [if_pos (by tauto)]
  simp

theorem renkoEmit_trend (s : RenkoState) : (renkoEmit s).trend = s.trend := by
  unfold renkoEmit
  split <;> rfl

theorem renkoEmit_box (s : RenkoState) : (renkoEmit s).box = s.box := by
  unfold renkoEmit
  split <;> rfl

theorem renkoContinue_of_zero (c : RenkoCfg) (box bg cp cl h l : ℚ) (s : RenkoState)
    (ht : s.trend = 0) : renkoContinue c box bg cp cl h l s = s := by
  unfold renkoContinue
  rw [if_neg (by rw [ht]; norm_num), if_neg (by rw [ht]; norm_num)]

theorem renkoEmit_of_zero (s : RenkoState) (ht : s.trend = 0) : renkoEmit s = s := by
  unfold renkoEmit
  rw [if_neg (by rw [ht]; norm_num)]

/-- Reachability invariant for the Renko indicator: the trend is one of
`0, 1, -1`; any established box is positive; and once a trend exists the
box and begin price are present and `value` mirrors the trend. -/
def RenkoInv (c : RenkoCfg) (s : RenkoState) : Prop :=
  (s.trend = 0 ∨ s.trend = 1 ∨ s.trend = -1) ∧
  (∀ x, s.box = some x → 0 < x) ∧
  (s.trend ≠ 0 → s.box.isSome = true ∧ s.begin_price.isSome = true ∧
    s.value = some s.trend)

theorem renkoAfterBox_inv (c : RenkoCfg) (high low close op : ℚ) (s2 : RenkoState)
    (hinv : RenkoInv c s2) : RenkoInv c (renkoAfterBox c high low close op s2) := by
  obtain ⟨htrend, hboxall, h3⟩ := hinv
  unfold renkoAfterBox
  split
  · exact ⟨htrend, hboxall, h3⟩
  · next hpos =>
    rw [not_le] at hpos
    have hbox : s2.box = some (s2.box.getD 0) := by
      rcases hB : s2.box with _ | x
      · rw [hB] at hpos
        norm_num at hpos
      · simp
    obtain ⟨hBt, hBb, hBic, hBa, hBbp⟩ := renkoBeginSet_fields op (s2.box.getD 0) s2
    set bx := s2.box.getD 0 with hbx
    set sB := renkoBeginSet op bx s2 with hsB
    set bg := sB.begin_price.getD 0 with hbg
    set cp := renkoCP c high low sB.trend close with hcp
    set sE := renkoEstablish c bx bg cp sB with hsE
    set sC := renkoContinue c bx bg cp close high low sE with hsC
    set sR := renkoRequant c sB.iclose sC with hsR
    obtain ⟨hEb, hEbp⟩ := renkoEstablish_box c bx bg cp sB
    have hEt : sE.trend = 0 ∨ sE.trend = 1 ∨ sE.trend = -1 := by
      rcases renkoEstablish_trend c bx bg cp sB with h | h | h
      · rw [hsE, h, hBt]
        exact htrend
      · exact Or.inr (Or.inl h)
      · exact Or.inr (Or.inr h)
    have hCb : sC.box = s2.box := by
      rw [hsC, renkoContinue_box, hEb, hBb]
    have hCt : sC.trend = 0 ∨ sC.trend = 1 ∨ sC.trend = -1 := by
      rcases hEt with h | h | h
      · rw [hsC, renkoContinue_of_zero c _ _ _ _ _ _ _ h, h]
        exact Or.inl rfl
      · rcases renkoContinue_trend c bx bg cp close high low sE (Or.inl h) with h2 | h2
        · exact Or.inr (Or.inl h2)
        · exact Or.inr (Or.inr h2)
      · rcases renkoContinue_trend c bx bg cp close high low sE (Or.inr h) with h2 | h2
        · exact Or.inr (Or.inl h2)
        · exact Or.inr (Or.inr h2)
    have hCbp : sC.begin_price.isSome = true := by
      rw [hsC]
      apply renkoContinue_begin_isSome
      rw [hEbp]
      exact hBbp
    obtain ⟨hRt, hRbp, hRv⟩ := renkoRequant_fields c sB.iclose sC
    have hRboxpos : ∀ x, sR.box = some x → 0 < x := by
      intro x hx
      refine renkoRequant_box c sB.iclose sC x hx ?_
      intro y hy
      rw [hCb] at hy
      exact hboxall y hy
    have hRbp2 : sR.begin_price.isSome = true := by
      rw [hRbp]
      exact hCbp
    have hRboxsome : sR.box.isSome = true := by
      rcases hRb : sR.box with _ | x
      · exfalso
        have : sC.box.isSome = true := by
          rw [hCb, hbox]
          rfl
        rw [hsR] at hRb
        unfold renkoRequant at hRb
        split at hRb
        · simp at hRb
        · rw [hRb] at this
          simp at this
      · rfl
    rcases hCt with h | h | h
    · rw [renkoEmit_of_zero sR (by rw [hRt]; exact h)]
      refine ⟨by rw [hRt, h]; exact Or.inl rfl, hRboxpos, ?_⟩
      intro hne
      rw [hRt, h] at hne
      exact absurd rfl hne
    · obtain ⟨hv1, hv2, hv3, hv4, _⟩ := renkoEmit_spec sR (by rw [hRt]; exact Or.inl h)
      refine ⟨by rw [hv2, hRt, h]; exact Or.inr (Or.inl rfl), ?_, ?_⟩
      · intro x hx
        rw [hv3] at hx
        exact hRboxpos x hx
      · intro _
        refine ⟨by rw [hv3]; exact hRboxsome, by rw [hv4]; exact hRbp2, by rw [hv1, hv2]⟩
    · obtain ⟨hv1, hv2, hv3, hv4, _⟩ := renkoEmit_spec sR (by rw [hRt]; exact Or.inr h)
      refine ⟨by rw [hv2, hRt, h]; exact Or.inr (Or.inr rfl), ?_, ?_⟩
      · intro x hx
        rw [hv3] at hx
        exact hRboxpos x hx
      · intro _
        refine ⟨by rw [hv3]; exact hRboxsome, by rw [hv4]; exact hRbp2, by rw [hv1, hv2]⟩

theorem updateAtr_inv (c : RenkoCfg) (h l cl : ℚ) (s : RenkoState)
    (hinv : RenkoInv c s) : RenkoInv c (updateAtr c h l cl s) := by
  obtain ⟨ht, hb, h3⟩ := hinv
  obtain ⟨f1, f2, f3, f4, f5, f6⟩ := updateAtr_fields c h l cl s
  refine ⟨by rw [f3]; exact ht, ?_, ?_⟩
  · intro x hx
    rw [f1] at hx
    exact hb x hx
  · intro hne
    rw [f3] at hne
    obtain ⟨g1, g2, g3⟩ := h3 hne
    exact ⟨by rw [f1]; exact g1, by rw [f2]; exact g2, by rw [f4, f3]; exact g3⟩

theorem renkoHandleBar_inv (c : RenkoCfg) (hv : c.valid) (b : Bar) (s : RenkoState)
    (hinv : RenkoInv c s) : RenkoInv c (renkoHandleBar c b s) := by
  have hinv1 := updateAtr_inv c b.high b.low b.close s hinv
  simp only [renkoHandleBar]
  rcases hbox : (updateAtr c b.high b.low b.close s).box with _ | bx
  · rcases c.method with _ | _
    · rcases hatr : (updateAtr c b.high b.low b.close s).atr with _ | a
      · exact hinv1
      · apply renkoAfterBox_inv
        obtain ⟨t1, t2, t3⟩ := hinv1
        refine ⟨t1, ?_, ?_⟩
        · intro x hx
          simp at hx
          rw [← hx]
          exact quantize_pos c a
        · intro hne
          obtain ⟨g1, _, _⟩ := t3 hne
          rw [hbox] at g1
          simp at g1
    · apply renkoAfterBox_inv
      obtain ⟨t1, t2, t3⟩ := hinv1
      refine ⟨t1, ?_, ?_⟩
      · intro x hx
        simp at hx
        rw [← hx]
        exact lt_of_lt_of_le hv.2.1 (le_max_left _ _)
      · intro hne
        obtain ⟨g1, _, _⟩ := t3 hne
        rw [hbox] at g1
        simp at g1
  · exact renkoAfterBox_inv c b.high b.low b.close b.open_ _ hinv1

theorem renkoRun_inv (c : RenkoCfg) (hv : c.valid) (bs : List Bar) :
    RenkoInv c (renkoRun c bs) := by
  induction bs using List.reverseRecOn with
  | nil =>
    refine ⟨Or.inl rfl, ?_, ?_⟩
    · intro x hx
      simp [renkoRun, renkoInit] at hx
    · intro h
      simp [renkoRun, renkoInit] at h
  | append_singleton bs b ih =>
    rw [renkoRun_append]
    exact renkoHandleBar_inv c hv b _ ih

theorem renkoAfterBox_persist (c : RenkoCfg) (high low close op : ℚ) (s2 : RenkoState)
    (bx : ℚ) (hbox : s2.box = some bx) (hbx : 0 < bx)
    (ht : s2.trend = 1 ∨ s2.trend = -1) :
    ((renkoAfterBox c high low close op s2).trend = 1 ∨
      (renkoAfterBox c high low close op s2).trend = -1) ∧
    (renkoAfterBox c high low close op s2).value =
      some (renkoAfterBox c high low close op s2).trend := by
  unfold renkoAfterBox
  rw [hbox]
  simp only [Option.getD_some]
  rw [if_neg (not_le.mpr hbx)]
  obtain ⟨hBt, hBb, hBic, hBa, hBbp⟩ := renkoBeginSet_fields op bx s2
  set sB := renkoBeginSet op bx s2 with hsB
  set bg := sB.begin_price.getD 0 with hbg
  set cp := renkoCP c high low sB.trend close with hcp
  have hne0 : sB.trend ≠ 0 := by
    rw [hBt]
    rcases ht with h | h <;> rw [h] <;> norm_num
  rw [renkoEstablish_of_ne c bx bg cp sB hne0]
  set sC := renkoContinue c bx bg cp close high low sB with hsC
  have hCt : sC.trend = 1 ∨ sC.trend = -1 := by
    apply renkoContinue_trend
    rw [hBt]
    exact ht
  obtain ⟨hRt, hRbp, hRv⟩ := renkoRequant_fields c sB.iclose sC
  set sR := renkoRequant c sB.iclose sC with hsR
  obtain ⟨hv1, hv2, _, _, _⟩ := renkoEmit_spec sR (by rw [hRt]; exact hCt)
  refine ⟨?_, ?_⟩
  · rw [hv2, hRt]
    exact hCt
  · rw [hv1, hv2]

/-- If a down trend flips to up during one `handle_bar`, the source's
reversal test must have passed: the up-reference price is at least
`box * reversal` above the captured begin price. -/
theorem renkoAfterBox_flip_up (c : RenkoCfg) (high low close op : ℚ) (s2 : RenkoState)
    (bx bg : ℚ) (hbox : s2.box = some bx) (hbx : 0 < bx)
    (hbegin : s2.begin_price = some bg) (ht : s2.trend = -1)
    (hflip : (renkoAfterBox c high low close op s2).trend = 1) :
    bx * (c.reversal : ℚ) ≤ renkoTempUp c close high - bg := by
  rw [renkoAfterBox] at hflip
  rw [hbox] at hflip
  simp only [Option.getD_some] at hflip
  rw [if_neg (not_le.mpr hbx)] at hflip
  rw [renkoBeginSet_of_isSome op bx s2 (by rw [hbegin]; rfl)] at hflip
  rw [renkoEstablish_of_ne c bx _ _ s2 (by rw [ht]; norm_num)] at hflip
  rw [hbegin] at hflip
  simp only [Option.getD_some] at hflip
  rw [renkoEmit_trend, (renkoRequant_fields c s2.iclose _).1] at hflip
  rw [renkoContinue] at hflip
  rw [if_pos ht] at hflip
  split at hflip
  · simp at hflip
  · split at hflip
    · next hcond =>
      obtain ⟨h1, h2⟩ := hcond
      rw [abs_sub_comm, abs_of_pos (by linarith)] at h2
      exact h2
    · rw [ht] at hflip
      norm_num at hflip

/-- Dual of `renkoAfterBox_flip_up`. -/
theorem renkoAfterBox_flip_down (c : RenkoCfg) (high low close op : ℚ) (s2 : RenkoState)
    (bx bg : ℚ) (hbox : s2.box = some bx) (hbx : 0 < bx)
    (hbegin : s2.begin_price = some bg) (ht : s2.trend = 1)
    (hflip : (renkoAfterBox c high low close op s2).trend = -1) :
    bx * (c.reversal : ℚ) ≤ bg - renkoTempDown c close low := by
  rw [renkoAfterBox] at hflip
  rw [hbox] at hflip
  simp only [Option.getD_some] at hflip
  rw [if_neg (not_le.mpr hbx)] at hflip
  rw [renkoBeginSet_of_isSome op bx s2 (by rw [hbegin]; rfl)] at hflip
  rw [renkoEstablish_of_ne c bx _ _ s2 (by rw [ht]; norm_num)] at hflip
  rw [hbegin] at hflip
  simp only [Option.getD_some] at hflip
  rw [renkoEmit_trend, (renkoRequant_fields c s2.iclose _).1] at hflip
  rw [renkoContinue] at hflip
  rw [if_neg (by rw [ht]; norm_num), if_pos ht] at hflip
  split at hflip
  · simp at hflip
  · split at hflip
    · next hcond =>
      obtain ⟨h1, h2⟩ := hcond
      rw [abs_of_pos (by linarith)] at h2
      exact h2
    · rw [ht] at hflip
      norm_num at hflip

theorem renkoHandleBar_eq_afterBox (c : RenkoCfg) (b : Bar) (s : RenkoState) (bx : ℚ)
    (hbox : (updateAtr c b.high b.low b.close s).box = some bx) :
    renkoHandleBar c b s =
      renkoAfterBox c b.high b.low b.close b.open_ (updateAtr c b.high b.low b.close s) := by
  simp only [renkoHandleBar, hbox]

/-- Facts about the state one `handle_bar` later when a trend already
exists: the updated trend is still `±1` and is emitted as `value`. -/
theorem renkoHandleBar_persist (c : RenkoCfg) (b : Bar) (s : RenkoState)
    (hinv : RenkoInv c s) (ht : s.trend = 1 ∨ s.trend = -1) :
    ((renkoHandleBar c b s).trend = 1 ∨ (renkoHandleBar c b s).trend = -1) ∧
    (renkoHandleBar c b s).value = some (renkoHandleBar c b s).trend := by
  obtain ⟨htr, hpos, h3⟩ := hinv
  have hne : s.trend ≠ 0 := by rcases ht with h | h <;> rw [h] <;> norm_num
  obtain ⟨hbs, hps, hvs⟩ := h3 hne
  obtain ⟨bx, hbx⟩ := Option.isSome_iff_exists.mp hbs
  obtain ⟨f1, f2, f3, f4, f5, f6⟩ := updateAtr_fields c b.high b.low b.close s
  have hbox1 : (updateAtr c b.high b.low b.close s).box = some bx := by rw [f1, hbx]
  rw [renkoHandleBar_eq_afterBox c b s bx hbox1]
  exact renkoAfterBox_persist c b.high b.low b.close b.open_ _ bx hbox1
    (hpos bx hbx) (by rw [f3]; exact ht)

theorem renkoHandleBar_flip_up (c : RenkoCfg) (b : Bar) (s : RenkoState)
    (hinv : RenkoInv c s) (ht : s.trend = -1)
    (hflip : (renkoHandleBar c b s).trend = 1) :
    ∃ bx bg, s.box = some bx ∧ s.begin_price = some bg ∧
      bx * (c.reversal : ℚ) ≤ refUp c b - bg := by
  obtain ⟨htr, hpos, h3⟩ := hinv
  obtain ⟨hbs, hps, hvs⟩ := h3 (by rw [ht]; norm_num)
  obtain ⟨bx, hbx⟩ := Option.isSome_iff_exists.mp hbs
  obtain ⟨bg, hbg⟩ := Option.isSome_iff_exists.mp hps
  obtain ⟨f1, f2, f3, f4, f5, f6⟩ := updateAtr_fields c b.high b.low b.close s
  have hbox1 : (updateAtr c b.high b.low b.close s).box = some bx := by rw [f1, hbx]
  rw [renkoHandleBar_eq_afterBox c b s bx hbox1] at hflip
  refine ⟨bx, bg, hbx, hbg, ?_⟩
  have := renkoAfterBox_flip_up c b.high b.low b.close b.open_ _ bx bg hbox1
    (hpos bx hbx) (by rw [f2, hbg]) (by rw [f3, ht]) hflip
  rcases hs : c.source with _ | _ <;>
    simpa [refUp, renkoTempUp, hs] using this

theorem renkoHandleBar_flip_down (c : RenkoCfg) (b : Bar) (s : RenkoState)
    (hinv : RenkoInv c s) (ht : s.trend = 1)
    (hflip : (renkoHandleBar c b s).trend = -1) :
    ∃ bx bg, s.box = some bx ∧ s.begin_price = some bg ∧
      bx * (c.reversal : ℚ) ≤ bg - refDown c b := by
  obtain ⟨htr, hpos, h3⟩ := hinv
  obtain ⟨hbs, hps, hvs⟩ := h3 (by rw [ht]; norm_num)
  obtain ⟨bx, hbx⟩ := Option.isSome_iff_exists.mp hbs
  obtain ⟨bg, hbg⟩ := Option.isSome_iff_exists.mp hps
  obtain ⟨f1, f2, f3, f4, f5, f6⟩ := updateAtr_fields c b.high b.low b.close s
  have hbox1 : (updateAtr c b.high b.low b.close s).box = some bx := by rw [f1, hbx]
  rw [renkoHandleBar_eq_afterBox c b s bx hbox1] at hflip
  refine ⟨bx, bg, hbx, hbg, ?_⟩
  have := renkoAfterBox_flip_down c b.high b.low b.close b.open_ _ bx bg hbox1
    (hpos bx hbx) (by rw [f2, hbg]) (by rw [f3, ht]) hflip
  rcases hs : c.source with _ | _ <;>
    simpa [refDown, renkoTempDown, hs] using this

/-- C4: once the Renko trend is established (non-zero after some run), the
value emitted by every subsequent `handle_bar` is `1` or `-1` (never `none`
or `0`), and across a single `handle_bar` step the trend flips sign only
when the step's reference price has moved at least `box * reversal` away
from the current `begin_price` against the trend. -/
theorem c4_renko_trend_stability (c : RenkoCfg) (hv : c.valid) (bs : List Bar) (b : Bar) :
    (((renkoRun c bs).trend = 1 ∨ (renkoRun c bs).trend = -1) →
      ((renkoRun c (bs ++ [b])).trend = 1 ∨ (renkoRun c (bs ++ [b])).trend = -1) ∧
      (renkoRun c (bs ++ [b])).value = some (renkoRun c (bs ++ [b])).trend) ∧
    ((renkoRun c bs).trend = -1 → (renkoRun c (bs ++ [b])).trend = 1 →
      ∃ bx bg, (renkoRun c bs).box = some bx ∧ (renkoRun c bs).begin_price = some bg ∧
        bx * (c.reversal : ℚ) ≤ refUp c b - bg) ∧
    ((renkoRun c bs).trend = 1 → (renkoRun c (bs ++ [b])).trend = -1 →
      ∃ bx bg, (renkoRun c bs).box = some bx ∧ (renkoRun c bs).begin_price = some bg ∧
        bx * (c.reversal : ℚ) ≤ bg - refDown c b) := by
  have hinv := renkoRun_inv c hv bs
  refine ⟨?_, ?_, ?_⟩
  · intro ht
    rw [renkoRun_append]
    exact renkoHandleBar_persist c b _ hinv ht
  · intro ht hflip
    rw [renkoRun_append] at hflip
    exact renkoHandleBar_flip_up c b _ hinv ht hflip
  · intro ht hflip
    rw [renkoRun_append] at hflip
    exact renkoHandleBar_flip_down c b _ hinv ht hflip

set_option maxHeartbeats 4000000 in
/-- Witness for C4: fixed bricks of size 1, reversal 2, close source; the
trend is established up on the second bar and flips down on the third,
whose close is `2.5` below the begin price `2`. -/
theorem c4_renko_trend_stability_witness :
    (((renkoRun ⟨RMethod.traditional, 1, 1, RSource.close, 2, none⟩
        ([⟨0, 0, 0, 0, 0⟩, ⟨(5 : ℚ)/2, (5 : ℚ)/2, (5 : ℚ)/2, (5 : ℚ)/2, 0⟩] ++
          [⟨-(1 : ℚ)/2, -(1 : ℚ)/2, -(1 : ℚ)/2, -(1 : ℚ)/2, 0⟩])).trend = 1 ∨
      (renkoRun ⟨RMethod.traditional, 1, 1, RSource.close, 2, none⟩
        ([⟨0, 0, 0, 0, 0⟩, ⟨(5 : ℚ)/2, (5 : ℚ)/2, (5 : ℚ)/2, (5 : ℚ)/2, 0⟩] ++
          [⟨-(1 : ℚ)/2, -(1 : ℚ)/2, -(1 : ℚ)/2, -(1 : ℚ)/2, 0⟩])).trend = -1) ∧
      (renkoRun ⟨RMethod.traditional, 1, 1, RSource.close, 2, none⟩
        ([⟨0, 0, 0, 0, 0⟩, ⟨(5 : ℚ)/2, (5 : ℚ)/2, (5 : ℚ)/2, (5 : ℚ)/2, 0⟩] ++
          [⟨-(1 : ℚ)/2, -(1 : ℚ)/2, -(1 : ℚ)/2, -(1 : ℚ)/2, 0⟩])).value =
        some (renkoRun ⟨RMethod.traditional, 1, 1, RSource.close, 2, none⟩
          ([⟨0, 0, 0, 0, 0⟩, ⟨(5 : ℚ)/2, (5 : ℚ)/2, (5 : ℚ)/2, (5 : ℚ)/2, 0⟩] ++
            [⟨-(1 : ℚ)/2, -(1 : ℚ)/2, -(1 : ℚ)/2, -(1 : ℚ)/2, 0⟩])).trend) ∧
    (∃ bx bg,
      (renkoRun ⟨RMethod.traditional, 1, 1, RSource.close, 2, none⟩
        [⟨0, 0, 0, 0, 0⟩, ⟨(5 : ℚ)/2, (5 : ℚ)/2, (5 : ℚ)/2, (5 : ℚ)/2, 0⟩]).box = some bx ∧
      (renkoRun ⟨RMethod.traditional, 1, 1, RSource.close, 2, none⟩
        [⟨0, 0, 0, 0, 0⟩, ⟨(5 : ℚ)/2, (5 : ℚ)/2, (5 : ℚ)/2, (5 : ℚ)/2, 0⟩]).begin_price
        = some bg ∧
      bx * ((2 : Nat) : ℚ) ≤ bg - refDown ⟨RMethod.traditional, 1, 1, RSource.close, 2, none⟩
        ⟨-(1 : ℚ)/2, -(1 : ℚ)/2, -(1 : ℚ)/2, -(1 : ℚ)/2, 0⟩) :=
  by
  have hv : RenkoCfg.valid ⟨RMethod.traditional, 1, 1, RSource.close, 2, none⟩ := by decide
  have habs1 : |(5 : ℚ)/2| = 5/2 := abs_of_nonneg (by norm_num)
  have habs2 : |(-(1 : ℚ)/2 - 5/2)| = 3 := by rw [abs_of_nonpos] <;> norm_num
  have habs3 : |((2 : ℚ) - -(1 : ℚ)/2)| = 5/2 := by rw [abs_of_nonneg] <;> norm_num
  have habs4 : |((2 : ℚ) - 5/2)| = 1/2 := by rw [abs_of_nonpos] <;> norm_num
  have habs5 : |((2 : ℚ) + 1/2)| = 5/2 := by rw [abs_of_nonneg] <;> norm_num
  have habs6 : |(-(1 : ℚ) + 1/2)| = 1/2 := by rw [abs_of_nonpos] <;> norm_num
  have hne : (some (0 : ℚ) = none) = False := by simp
  have hne2 : (some ((5 : ℚ)/2) = none) = False := by simp
  have hne3 : (some (2 : ℚ) = none) = False := by simp
  have hme : (RMethod.traditional = RMethod.atr) = False := by simp
  have h1 : (renkoRun ⟨RMethod.traditional, 1, 1, RSource.close, 2, none⟩
      [⟨0, 0, 0, 0, 0⟩, ⟨(5 : ℚ)/2, (5 : ℚ)/2, (5 : ℚ)/2, (5 : ℚ)/2, 0⟩]).trend = 1 := by
    norm_num [renkoRun, renkoInit, renkoHandleBar, updateAtr, renkoAfterBox, renkoBeginSet,
      renkoCP, renkoEstablish, renkoContinue, renkoTempUp, renkoTempDown, renkoRequant,
      renkoEmit, quantize, RenkoCfg.minTick, habs1, hne, hne2, hme,
      abs_of_nonneg, abs_of_nonpos, sub_zero, zero_sub, neg_neg, neg_sub]
  have h2 : (renkoRun ⟨RMethod.traditional, 1, 1, RSource.close, 2, none⟩
      ([⟨0, 0, 0, 0, 0⟩, ⟨(5 : ℚ)/2, (5 : ℚ)/2, (5 : ℚ)/2, (5 : ℚ)/2, 0⟩] ++
        [⟨-(1 : ℚ)/2, -(1 : ℚ)/2, -(1 : ℚ)/2, -(1 : ℚ)/2, 0⟩])).trend = -1 := by
    norm_num [renkoRun, renkoInit, renkoHandleBar, updateAtr, renkoAfterBox, renkoBeginSet,
      renkoCP, renkoEstablish, renkoContinue, renkoTempUp, renkoTempDown, renkoRequant,
      renkoEmit, quantize, RenkoCfg.minTick, habs1, habs2, habs3, habs4, habs5, habs6,
      hne, hne2, hne3, hme,
      abs_of_nonneg, abs_of_nonpos, sub_zero, zero_sub, neg_neg, neg_sub]
  exact ⟨(c4_renko_trend_stability ⟨RMethod.traditional, 1, 1, RSource.close, 2, none⟩
      hv [⟨0, 0, 0, 0, 0⟩, ⟨(5 : ℚ)/2, (5 : ℚ)/2, (5 : ℚ)/2, (5 : ℚ)/2, 0⟩]
      ⟨-(1 : ℚ)/2, -(1 : ℚ)/2, -(1 : ℚ)/2, -(1 : ℚ)/2, 0⟩).1 (Or.inl h1),
    (c4_renko_trend_stability ⟨RMethod.traditional, 1, 1, RSource.close, 2, none⟩
      hv [⟨0, 0, 0, 0, 0⟩, ⟨(5 : ℚ)/2, (5 : ℚ)/2, (5 : ℚ)/2, (5 : ℚ)/2, 0⟩]
      ⟨-(1 : ℚ)/2, -(1 : ℚ)/2, -(1 : ℚ)/2, -(1 : ℚ)/2, 0⟩).2.2 h1 h2⟩


/-! ### Breakout decision engines (`src/breakoutv2.py` and `src/breakout.py`) -/

inductive Sym
  | main
  | reverse
  deriving DecidableEq, Repr

inductive Side
  | buy
  | sell
  deriving DecidableEq, Repr

/-- A market order as submitted by `BreakoutV2.on_hour_bar`:
instrument, side, and integer quantity. -/
structure Order where
  sym : Sym
  side : Side
  qty : ℤ
  deriving DecidableEq, Repr

/-- The inputs read by `BreakoutV2.on_hour_bar` after its initialization
guard: the bar close, the EMA value, the four high/low levels, net
positions, balance and last 1-minute prices of both instruments. -/
structure HourInputs where
  close : ℚ
  emaValue : ℚ
  highEntry : ℚ
  lowEntry : ℚ
  highExit : ℚ
  lowExit : ℚ
  mainPos : ℤ
  reversePos : ℤ
  balance : ℚ
  mainLastPx : ℚ
  reverseLastPx : ℚ
  deriving DecidableEq, Repr

/-- `indicator = 1 if bar.close > self.ema.value else -1`. -/
def hourIndicator (i : HourInputs) : ℤ :=
  if i.emaValue < i.close then 1 else -1

/-- The four sequential `if` statements of `BreakoutV2.on_hour_bar`, in
source order; each appends the order it submits.  Entry quantity is
`math.floor((balance * 0.95) / last_px)`. -/
def onHourBar (i : HourInputs) : List Order :=
  (if i.close < i.lowExit ∧ 0 < i.mainPos then
    [⟨Sym.main, Side.sell, i.mainPos⟩] else []) ++
  (if i.highExit < i.close ∧ 0 < i.reversePos then
    [⟨Sym.reverse, Side.sell, i.reversePos⟩] else []) ++
  (if i.highEntry < i.close ∧ hourIndicator i = 1 ∧ i.mainPos = 0 ∧ i.reversePos = 0 then
    [⟨Sym.main, Side.buy, ⌊i.balance * (95 / 100) / i.mainLastPx⌋⟩] else []) ++
  (if i.close < i.lowEntry ∧ hourIndicator i = -1 ∧ i.reversePos = 0 ∧ i.mainPos = 0 then
    [⟨Sym.reverse, Side.buy, ⌊i.balance * (95 / 100) / i.reverseLastPx⌋⟩] else [])

inductive MinuteAction
  | exitLong
  | exitShort
  | enterLong
  | enterShort
  deriving DecidableEq, Repr

/-- Inputs of `BreakoutStrategy._check_minute_breakouts`: the minute bar's
high/low, the indicator value and neutral threshold, the derived position
flag, and the four levels (`none` models `NaN`). -/
structure MinuteInputs where
  currentHigh : ℚ
  currentLow : ℚ
  indicatorValue : ℚ
  neutralThreshold : ℚ
  position : ℤ
  lowestLowLongExit : Option ℚ
  highestHighShortExit : Option ℚ
  highestHighLong : Option ℚ
  lowestLowShort : Option ℚ
  deriving DecidableEq, Repr

/-- The `if`/`elif` chain of `BreakoutStrategy._check_minute_breakouts`. -/
def checkMinuteBreakouts (i : MinuteInputs) : List MinuteAction :=
  if i.position = 1 ∧ i.lowestLowLongExit.isSome then
    (if i.currentLow < i.lowestLowLongExit.getD 0 then [MinuteAction.exitLong] else [])
  else if i.position = -1 ∧ i.highestHighShortExit.isSome then
    (if i.highestHighShortExit.getD 0 < i.currentHigh then [MinuteAction.exitShort] else [])
  else if i.position = 0 then
    (if i.neutralThreshold < i.indicatorValue ∧ i.highestHighLong.isSome then
      (if i.highestHighLong.getD 0 < i.currentHigh then [MinuteAction.enterLong] else [])
    else if i.indicatorValue < -i.neutralThreshold ∧ i.lowestLowShort.isSome then
      (if i.currentLow < i.lowestLowShort.getD 0 then [MinuteAction.enterShort] else [])
    else [])
  else []

/-- Python `int()` applied to a rational: truncation toward zero. -/
def pyInt (q : ℚ) : ℤ := q.num.tdiv q.den

/-- `BreakoutStrategy._calculate_position_size` with an account present:
`shares = max(int(balance / price), min_trade_size)`. -/
def calcPositionSize (minTradeSize : ℤ) (balance price : ℚ) : ℤ :=
  max (pyInt (balance / price)) minTradeSize


/-- Trace of per-bar outputs: feed `bs` one bar at a time from state `s`,
recording `out` of the state after each bar. -/
def runTrace {σ α : Type} (step : Bar → σ → σ) (out : σ → α) : σ → List Bar → List α
  | _, [] => []
  | s, b :: bs => out (step b s) :: runTrace step out (step b s) bs

/-- Modelled from the spec: the internal nautilus `ExponentialMovingAverage`
of `EMASignalIndicator` is represented by the stream of closes it has seen;
its value is the standard EMA (SMA seed over the first `period` closes,
multiplier `2/(period+1)`), and it is initialized once `period` closes have
arrived. -/
structure EmaSigState where
  prices : List ℚ
  initialized : Bool
  value : Option ℤ
  deriving DecidableEq, Repr

def emaSigInit : EmaSigState := ⟨[], false, none⟩

/-- `EMASignalIndicator.handle_bar`: update the internal EMA, mirror its
initialized flag, and once initialized set `value` to `1` if the close is
above the EMA and `-1` otherwise. -/
def emaSigHandleBar (p : Nat) (b : Bar) (s : EmaSigState) : EmaSigState :=
  if p ≤ s.prices.length + 1 then
    ⟨s.prices ++ [b.close], true,
      some (if standardEma p (s.prices ++ [b.close]) < b.close then 1 else -1)⟩
  else
    ⟨s.prices ++ [b.close], false, s.value⟩

/-- `EMASignalIndicator.reset`: reset the internal EMA, clear `value` and
`initialized`. -/
def emaSigReset (_s : EmaSigState) : EmaSigState := emaSigInit

/-- C2 counterexample: with exit levels `low_exit = 10 > 5 = high_exit`,
close `7`, and both net positions positive, `on_hour_bar` submits two sell
orders in a single call, contradicting "at most one order per bar". -/
theorem c2_counterexample :
    onHourBar ⟨7, 0, 100, 0, 5, 10, 1, 1, 0, 1, 1⟩ =
      [⟨Sym.main, Side.sell, 1⟩, ⟨Sym.reverse, Side.sell, 1⟩] ∧
    ¬ ((onHourBar ⟨7, 0, 100, 0, 5, 10, 1, 1, 0, 1, 1⟩).length ≤ 1) := by
  constructor <;> decide

/-- C2 (amended): `BreakoutV2.on_hour_bar` submits at most one order per
bar whenever the exit-low level does not exceed the exit-high level, and
`BreakoutStrategy._check_minute_breakouts` performs at most one action per
bar unconditionally. -/
theorem c2_at_most_one_order :
    (∀ i : HourInputs, i.lowExit ≤ i.highExit → (onHourBar i).length ≤ 1) ∧
    (∀ i : MinuteInputs, (checkMinuteBreakouts i).length ≤ 1) := by
  constructor
  · intro i h
    unfold onHourBar hourIndicator
    split_ifs <;> simp_all <;> first | omega | linarith
  · intro i
    unfold checkMinuteBreakouts
    split_ifs <;> simp

theorem c2_at_most_one_order_witness :
    (onHourBar ⟨7, 0, 100, 0, 10, 5, 1, 1, 0, 1, 1⟩).length ≤ 1 ∧
    (checkMinuteBreakouts ⟨0, 0, 0, 0, 0, none, none, none, none⟩).length ≤ 1 :=
  ⟨c2_at_most_one_order.1 ⟨7, 0, 100, 0, 10, 5, 1, 1, 0, 1, 1⟩ (by norm_num),
   c2_at_most_one_order.2 ⟨0, 0, 0, 0, 0, none, none, none, none⟩⟩

/-- C8 counterexample: with balance `10` and last price `1000` the computed
entry quantity `floor(10 * 0.95 / 1000)` is `0`, yet `on_hour_bar` still
submits the order (with quantity `0`) instead of suppressing it. -/
theorem c8_counterexample :
    (⌊(10 : ℚ) * (95 / 100) / 1000⌋ : ℤ) = 0 ∧
    onHourBar ⟨10, 0, 5, -100, 100, -100, 0, 0, 10, 1000, 1⟩ =
      [⟨Sym.main, Side.buy, 0⟩] := by
  constructor
  · norm_num
  · norm_num [onHourBar, hourIndicator]

/-- C8 (amended): in `BreakoutV2.on_hour_bar` a satisfied main-entry
condition always submits the order with quantity
`floor(balance * 0.95 / last_px)`, whatever its sign; in `breakout.py`,
`_calculate_position_size` clamps the computed size from below by
`min_trade_size`. -/
theorem c8_quantity_handling :
    (∀ i : HourInputs, i.highEntry < i.close → i.emaValue < i.close →
      i.mainPos = 0 → i.reversePos = 0 →
      Order.mk Sym.main Side.buy ⌊i.balance * (95 / 100) / i.mainLastPx⌋ ∈ onHourBar i) ∧
    (∀ m : ℤ, ∀ b p : ℚ, m ≤ calcPositionSize m b p) := by
  constructor
  · intro i h1 h2 h3 h4
    have hcond : i.highEntry < i.close ∧ hourIndicator i = 1 ∧
        i.mainPos = 0 ∧ i.reversePos = 0 := ⟨h1, by simp [hourIndicator, h2], h3, h4⟩
    simp [onHourBar, if_pos hcond]
  · intro m b p
    exact le_max_right _ _

theorem c8_quantity_handling_witness :
    Order.mk Sym.main Side.buy ⌊(10 : ℚ) * (95 / 100) / (1000 : ℚ)⌋ ∈
      onHourBar ⟨10, 0, 5, -100, 100, -100, 0, 0, 10, 1000, 1⟩ ∧
    (1 : ℤ) ≤ calcPositionSize 1 10 1000 :=
  ⟨c8_quantity_handling.1 ⟨10, 0, 5, -100, 100, -100, 0, 0, 10, 1000, 1⟩
      (by norm_num) (by norm_num) rfl rfl,
   c8_quantity_handling.2 1 10 1000⟩

/-- C9: for each indicator (rolling extrema tracker, momentum/mean-reversion
signal, Renko trend signal, EMA regime signal), calling `reset` and then
feeding any bar sequence yields exactly the same `(initialized, value)`
trace as feeding it to a freshly constructed instance. -/
theorem c9_reset_roundtrip (hc : HLCfg) (mc : MMCfg) (rc : RenkoCfg) (p : Nat)
    (s1 : HLState) (s2 : MMState) (s3 : RenkoState) (s4 : EmaSigState) (bs : List Bar) :
    runTrace (hlHandleBar hc) (fun s => (s.initialized, s.value)) (hlReset hc s1) bs =
      runTrace (hlHandleBar hc) (fun s => (s.initialized, s.value)) (hlInit hc) bs ∧
    runTrace (mmHandleBar mc) (fun s => (s.initialized, s.value)) (mmReset s2) bs =
      runTrace (mmHandleBar mc) (fun s => (s.initialized, s.value)) mmInit bs ∧
    runTrace (renkoHandleBar rc) (fun s => (s.initialized, s.value)) (renkoReset s3) bs =
      runTrace (renkoHandleBar rc) (fun s => (s.initialized, s.value)) renkoInit bs ∧
    runTrace (emaSigHandleBar p) (fun s => (s.initialized, s.value)) (emaSigReset s4) bs =
      runTrace (emaSigHandleBar p) (fun s => (s.initialized, s.value)) emaSigInit bs :=
  ⟨rfl, rfl, rfl, rfl⟩
end TradingStrat
